import Mathlib

set_option maxRecDepth 16000

/-!
Verification of the cqlmigrate migration orchestrator.

This file shallowly embeds the core of the cqlmigrate tool:

* `src/lib/Lexer.ts` — the moo-based CQL tokenizer (token classes tried in
  declaration order: string, comment, uuid, whitespace, symbol,
  identifierOrValue);
* `src/lib/util.ts` — `canonicalizeCql` (join of required tokens) and
  `getCqlChecksum` (hex-encoded MD5 of the UTF-8 bytes);
* `src/models/CqlFile.ts` / `src/models/Migration.ts` — the two-phase
  apply protocol with checksum skip logic;
* `src/models/Lock.ts` — conditional-write lock acquire/release;
* `src/Migrator.ts` — file loading/classification, the round scheduler and
  the orchestrator lifecycle.

External effects (the Cassandra driver, the clock, the filesystem walk) are
modelled by explicit environments; each database call's outcome is drawn
from the environment and each attempted mutation is recorded in a trace.
-/

/-! ### Character classes (JavaScript regex semantics, no unicode flag) -/

/-- JS `\w` is exactly `[A-Za-z0-9_]`; the lexer's identifierOrValue class. -/
def isWordChar (c : Char) : Bool :=
  (('a' ≤ c && c ≤ 'z') || ('A' ≤ c && c ≤ 'Z') || ('0' ≤ c && c ≤ '9') || c = '_')

/-- JS `\s`: ASCII whitespace plus the unicode space separators recognised by
JavaScript regexes. Used by the `whitespace` token class. -/
def isJsWhitespace (c : Char) : Bool :=
  (c = ' ' || c = '\t' || c = '\n' || c.toNat = 0x0b || c.toNat = 0x0c ||
   c.toNat = 0x0d || c.toNat = 0xa0 || c.toNat = 0x1680 ||
   (0x2000 ≤ c.toNat && c.toNat ≤ 0x200a) || c.toNat = 0x2028 ||
   c.toNat = 0x2029 || c.toNat = 0x202f || c.toNat = 0x205f ||
   c.toNat = 0x3000 || c.toNat = 0xfeff)

/-- JS `.` excludes exactly the line terminators. Line comments run to the
end of the line because they end with `.*`. -/
def isLineTerm (c : Char) : Bool :=
  (c = '\n' || c.toNat = 0x0d || c.toNat = 0x2028 || c.toNat = 0x2029)

/-- Lowercase hex digit, the character class `[a-f0-9]` of the uuid rule. -/
def isHexLower (c : Char) : Bool :=
  (('a' ≤ c && c ≤ 'f') || ('0' ≤ c && c ≤ '9'))

/-- The single-quote character (written by code to avoid quoting issues). -/
def squote : Char := Char.ofNat 39

/-! ### Token matchers

Each matcher takes the remaining input and returns `some (tokenChars, rest)`
on a match at the current position, mirroring one alternative of the moo
lexer's combined sticky regex.  -/

/-- Content of a quoted string after the opening delimiter `q`:
`(?:[^q]|qq)*q` with a greedy, backtracking star. The star's step is
deterministic (a non-`q` char, or a doubled `qq`), so the greedy regex match
closes at the last position of that chain holding a `q`. Returns the
consumed characters (closing quote included) and the rest. -/
def matchStringAux (q : Char) : List Char → Option (List Char × List Char)
  | [] => none
  | c :: rest =>
    if c = q then
      match rest with
      | c2 :: rest2 =>
        if c2 = q then
          -- doubled delimiter: greedily continue; on failure close here
          match matchStringAux q rest2 with
          | some (tok, rest') => some (c :: c2 :: tok, rest')
          | none => some ([c], rest)
        else some ([c], rest)
      | [] => some ([c], [])
    else
      (matchStringAux q rest).map (fun p => (c :: p.1, p.2))

/-- The `string` token class: `'…'` or `"…"` with doubled-delimiter escapes
(`singleQuoteString|doubleQuoteString` in `Lexer.ts`). -/
def matchStrTok : List Char → Option (List Char × List Char)
  | [] => none
  | c :: rest =>
    if c = squote || c = '"' then
      (matchStringAux c rest).map (fun p => (c :: p.1, p.2))
    else none

/-- Block comment body: non-greedy `[\s\S]*?\*/` splits at the first `*/`. -/
def findBlockEnd : List Char → Option (List Char × List Char)
  | [] => none
  | [_] => none
  | c :: c2 :: rest =>
    if c = '*' && c2 = '/' then some (['*', '/'], rest)
    else (findBlockEnd (c2 :: rest)).map (fun p => (c :: p.1, p.2))

/-- The `comment` token class: block comment `/*…*/`, or a line comment of
two-or-more slashes or two-or-more dashes running to end of line
(`blockComment|slashComment|dashComment` in `Lexer.ts`). -/
def matchComment : List Char → Option (List Char × List Char)
  | c :: c2 :: rest =>
    if c = '/' && c2 = '*' then
      (findBlockEnd rest).map (fun p => ('/' :: '*' :: p.1, p.2))
    else if c = '/' && c2 = '/' then
      let tok := rest.takeWhile (fun x => !(isLineTerm x))
      some ('/' :: '/' :: tok, rest.drop tok.length)
    else if c = '-' && c2 = '-' then
      let tok := rest.takeWhile (fun x => !(isLineTerm x))
      some ('-' :: '-' :: tok, rest.drop tok.length)
    else none
  | _ => none

/-- Exactly `n` lowercase hex digits. -/
def takeHexN : Nat → List Char → Option (List Char × List Char)
  | 0, cs => some ([], cs)
  | _ + 1, [] => none
  | n + 1, c :: cs =>
    if isHexLower c then (takeHexN n cs).map (fun p => (c :: p.1, p.2)) else none

/-- Consume a literal dash. -/
def expectDash : List Char → Option (List Char)
  | c :: rest => if c = '-' then some rest else none
  | [] => none

/-- The `uuid` token class: hex groups `8-4-4-4-12`. -/
def matchUuid (cs : List Char) : Option (List Char × List Char) :=
  (takeHexN 8 cs).bind (fun p1 =>
    (expectDash p1.2).bind (fun s1 =>
      (takeHexN 4 s1).bind (fun p2 =>
        (expectDash p2.2).bind (fun s2 =>
          (takeHexN 4 s2).bind (fun p3 =>
            (expectDash p3.2).bind (fun s3 =>
              (takeHexN 4 s3).bind (fun p4 =>
                (expectDash p4.2).bind (fun s4 =>
                  (takeHexN 12 s4).map (fun p5 =>
                    (p1.1 ++ '-' :: p2.1 ++ '-' :: p3.1 ++ '-' :: p4.1 ++ '-' :: p5.1,
                     p5.2))))))))))

/-- The `whitespace` token class: `[\s]+`, greedy. -/
def matchWs (cs : List Char) : Option (List Char × List Char) :=
  let tok := cs.takeWhile isJsWhitespace
  if tok.isEmpty then none else some (tok, cs.drop tok.length)

/-- The `symbol` token class: a single `\W` character. -/
def matchSymbol : List Char → Option (List Char × List Char)
  | [] => none
  | c :: rest => if isWordChar c then none else some ([c], rest)

/-- The `identifierOrValue` token class: `[a-zA-Z0-9_]+`, greedy. -/
def matchIdent (cs : List Char) : Option (List Char × List Char) :=
  let tok := cs.takeWhile isWordChar
  if tok.isEmpty then none else some (tok, cs.drop tok.length)

/-- Token types in the lexer's declaration order. -/
inductive TokType where
  | str
  | comment
  | uuid
  | whitespace
  | symbol
  | identifierOrValue
deriving DecidableEq, Repr

/-- Try the token classes in declaration order at the current position and
take the first that matches, as moo guarantees for its combined regex. -/
def firstMatch (cs : List Char) : Option (TokType × List Char × List Char) :=
  match matchStrTok cs with
  | some (t, r) => some (.str, t, r)
  | none =>
    match matchComment cs with
    | some (t, r) => some (.comment, t, r)
    | none =>
      match matchUuid cs with
      | some (t, r) => some (.uuid, t, r)
      | none =>
        match matchWs cs with
        | some (t, r) => some (.whitespace, t, r)
        | none =>
          match matchSymbol cs with
          | some (t, r) => some (.symbol, t, r)
          | none =>
            match matchIdent cs with
            | some (t, r) => some (.identifierOrValue, t, r)
            | none => none

/-- The scan loop of `Lexer.getTokens`: repeatedly take the first matching
token class. `none` models the moo lexer throwing when no class matches.
`fuel` bounds the number of tokens; `getTokens` supplies enough. -/
def lexAux : Nat → List Char → Option (List (TokType × List Char))
  | _, [] => some []
  | 0, _ :: _ => none
  | fuel + 1, cs =>
    match firstMatch cs with
    | none => none
    | some (t, tok, rest) => (lexAux fuel rest).map (fun l => (t, tok) :: l)

/-- `Lexer.getTokens` over the characters of the input. -/
def getTokens (cs : List Char) : Option (List (TokType × List Char)) :=
  lexAux cs.length cs

/-- `optionalTokenTypes = ['comment', 'whitespace']`: the types removed by
`Lexer.getRequiredTokens`. -/
def isOptionalTokType (t : TokType) : Bool :=
  t = .comment || t = .whitespace

/-- `canonicalizeCql` from `util.ts`: the values of all required (non-comment,
non-whitespace) tokens joined with single spaces. `none` models the lexer
throwing (proved unreachable below). -/
def canonicalizeCql (s : String) : Option String :=
  (getTokens s.toList).map (fun toks =>
    String.intercalate " "
      ((toks.filter (fun p => !isOptionalTokType p.1)).map (fun p => String.mk p.2)))

/-- Total wrapper used by the file models, where the lexer's success is
established separately. -/
def canonicalCql (s : String) : String :=
  (canonicalizeCql s).getD ""

/-! ### Checksum: `getCqlChecksum` (hex-encoded MD5 of the UTF-8 bytes)

`util.ts` delegates to node's `crypto.createHash('md5')`; the algorithm is
embedded here (RFC 1321), operating on `Nat` values reduced mod `2^32`. -/

/-- Reduce to a 32-bit word. -/
def m32 (n : Nat) : Nat := n % 4294967296

/-- 32-bit modular addition. -/
def wadd (a b : Nat) : Nat := m32 (a + b)

/-- Bitwise complement within 32 bits (`2^32 - 1 - x` flips every bit of a
value `< 2^32`). -/
def wnot (x : Nat) : Nat := 4294967295 - m32 x

/-- 32-bit left rotation. The two parts occupy disjoint bit ranges for
`x < 2^32`, so their sum is the rotated word. -/
def wrotl (x s : Nat) : Nat := m32 (m32 (x * 2 ^ s) + m32 x / 2 ^ (32 - s))

/-- Round functions F, G, H, I of MD5. -/
def md5F (b c d : Nat) : Nat := (b &&& c) ||| (wnot b &&& d)

def md5G (b c d : Nat) : Nat := (b &&& d) ||| (c &&& wnot d)

def md5H (b c d : Nat) : Nat := b ^^^ c ^^^ d

def md5I (b c d : Nat) : Nat := c ^^^ (b ||| wnot d)

/-- The 64 sine-derived constants of MD5. -/
def md5K : List Nat :=
  [0xd76aa478, 0xe8c7b756, 0x242070db, 0xc1bdceee,
   0xf57c0faf, 0x4787c62a, 0xa8304613, 0xfd469501,
   0x698098d8, 0x8b44f7af, 0xffff5bb1, 0x895cd7be,
   0x6b901122, 0xfd987193, 0xa679438e, 0x49b40821,
   0xf61e2562, 0xc040b340, 0x265e5a51, 0xe9b6c7aa,
   0xd62f105d, 0x02441453, 0xd8a1e681, 0xe7d3fbc8,
   0x21e1cde6, 0xc33707d6, 0xf4d50d87, 0x455a14ed,
   0xa9e3e905, 0xfcefa3f8, 0x676f02d9, 0x8d2a4c8a,
   0xfffa3942, 0x8771f681, 0x6d9d6122, 0xfde5380c,
   0xa4beea44, 0x4bdecfa9, 0xf6bb4b60, 0xbebfbc70,
   0x289b7ec6, 0xeaa127fa, 0xd4ef3085, 0x04881d05,
   0xd9d4d039, 0xe6db99e5, 0x1fa27cf8, 0xc4ac5665,
   0xf4292244, 0x432aff97, 0xab9423a7, 0xfc93a039,
   0x655b59c3, 0x8f0ccc92, 0xffeff47d, 0x85845dd1,
   0x6fa87e4f, 0xfe2ce6e0, 0xa3014314, 0x4e0811a1,
   0xf7537e82, 0xbd3af235, 0x2ad7d2bb, 0xeb86d391]

/-- The per-step left-rotation amounts of MD5. -/
def md5S : List Nat :=
  [7, 12, 17, 22, 7, 12, 17, 22, 7, 12, 17, 22, 7, 12, 17, 22,
   5, 9, 14, 20, 5, 9, 14, 20, 5, 9, 14, 20, 5, 9, 14, 20,
   4, 11, 16, 23, 4, 11, 16, 23, 4, 11, 16, 23, 4, 11, 16, 23,
   6, 10, 15, 21, 6, 10, 15, 21, 6, 10, 15, 21, 6, 10, 15, 21]

/-- One of the 64 steps of an MD5 block, on state `(a, b, c, d)` with message
words `M`. -/
def md5Step (M : List Nat) (st : Nat × Nat × Nat × Nat) (i : Nat) :
    Nat × Nat × Nat × Nat :=
  let a := st.1
  let b := st.2.1
  let c := st.2.2.1
  let d := st.2.2.2
  let fg : Nat × Nat :=
    if i < 16 then (md5F b c d, i)
    else if i < 32 then (md5G b c d, (5 * i + 1) % 16)
    else if i < 48 then (md5H b c d, (3 * i + 5) % 16)
    else (md5I b c d, (7 * i) % 16)
  let rotated :=
    wrotl (wadd (wadd a fg.1) (wadd (md5K.getD i 0) (M.getD fg.2 0)))
      (md5S.getD i 0)
  (d, wadd b rotated, b, c)

/-- Interpret 64 bytes as 16 little-endian 32-bit words. -/
def bytesToWords : List Nat → List Nat
  | b0 :: b1 :: b2 :: b3 :: rest =>
    (b0 + 256 * b1 + 65536 * b2 + 16777216 * b3) :: bytesToWords rest
  | _ => []

/-- Process one 64-byte block. -/
def md5Block (h : Nat × Nat × Nat × Nat) (block : List Nat) :
    Nat × Nat × Nat × Nat :=
  let M := bytesToWords block
  let r := (List.range 64).foldl (md5Step M) h
  (wadd h.1 r.1, wadd h.2.1 r.2.1, wadd h.2.2.1 r.2.2.1, wadd h.2.2.2 r.2.2.2)

/-- Split the padded message into 64-byte blocks (`fuel` bounds recursion). -/
def chunks64 : Nat → List Nat → List (List Nat)
  | _, [] => []
  | 0, _ :: _ => []
  | fuel + 1, bs => bs.take 64 :: chunks64 fuel (bs.drop 64)

/-- MD5 padding: `0x80`, zeros to 56 mod 64, then the 64-bit little-endian
bit length. -/
def md5Pad (msg : List Nat) : List Nat :=
  let zeros := (119 - msg.length % 64) % 64
  let bitLen := (8 * msg.length) % 2 ^ 64
  msg ++ 0x80 :: List.replicate zeros 0 ++
    (List.range 8).map (fun i => bitLen / 256 ^ i % 256)

/-- Lowercase hex digit. -/
def hexChar (n : Nat) : Char :=
  if n < 10 then Char.ofNat (48 + n) else Char.ofNat (87 + n)

/-- A byte as two lowercase hex characters. -/
def byteHex (b : Nat) : List Char := [hexChar (b / 16 % 16), hexChar (b % 16)]

/-- A 32-bit word as four little-endian bytes. -/
def wordBytes (w : Nat) : List Nat :=
  [w % 256, w / 256 % 256, w / 65536 % 256, w / 16777216 % 256]

/-- Hex-encoded MD5 digest of a byte list. -/
def md5Hex (msg : List Nat) : String :=
  let padded := md5Pad msg
  let init : Nat × Nat × Nat × Nat :=
    (0x67452301, 0xefcdab89, 0x98badcfe, 0x10325476)
  let h := (chunks64 (padded.length) padded).foldl md5Block init
  String.mk
    (((wordBytes h.1 ++ wordBytes h.2.1 ++ wordBytes h.2.2.1 ++
       wordBytes h.2.2.2).map byteHex).flatten)

/-- UTF-8 encoding of one character (what node's `hash.update(string)` uses). -/
def utf8EncodeChar (c : Char) : List Nat :=
  let n := c.toNat
  if n < 0x80 then [n]
  else if n < 0x800 then [0xc0 + n / 64, 0x80 + n % 64]
  else if n < 0x10000 then [0xe0 + n / 4096, 0x80 + n / 64 % 64, 0x80 + n % 64]
  else [0xf0 + n / 262144, 0x80 + n / 4096 % 64, 0x80 + n / 64 % 64, 0x80 + n % 64]

/-- The UTF-8 bytes of a string. -/
def utf8Bytes (s : String) : List Nat :=
  (s.toList.map utf8EncodeChar).flatten

/-- `getCqlChecksum` from `util.ts`: hex-encoded MD5 of the UTF-8 bytes of
the input. -/
def getCqlChecksum (input : String) : String :=
  md5Hex (utf8Bytes input)

/-! ### Migration model (`CqlFile.ts`, `Migration.ts`)

A `Migration` object after `init()`: coordinates parsed from the relative
path `{keyspace}/{service}/{file}`, the canonicalized file body, and the
state hydrated from the `migrations` table (or the constructor defaults
`appliedOn = null`, `success = false`, `checksum = null` when no row
exists). -/

structure MigrationState where
  keyspace : String
  service : String
  file : String
  fileBody : String
  checksum : Option String
  appliedOn : Option Nat
  success : Bool
deriving DecidableEq, Repr

/-- `Migration.getInsertableObject()`: the row written by `save()`. -/
structure MigrationRow where
  keyspace_name : String
  service : String
  file : String
  body : String
  applied_on : Option Nat
  checksum : Option String
  success : Bool
deriving DecidableEq, Repr

/-- The database mutations attempted by an apply, in order. -/
inductive DbEffect where
  | insertRow (row : MigrationRow)
  | execStmt (stmt : String)
deriving DecidableEq, Repr

/-- Outcomes of the driver calls made during one `apply()`: `now i` is the
value of the `i`-th `new Date()`, `saveOk i` whether the `i`-th `save()`
succeeds, `execOk i` whether the `i`-th executed statement succeeds. -/
structure ApplyEnv where
  now : Nat → Nat
  saveOk : Nat → Bool
  execOk : Nat → Bool

def insertableObject (st : MigrationState) : MigrationRow :=
  ⟨st.keyspace, st.service, st.file, st.fileBody, st.appliedOn, st.checksum,
   st.success⟩

/-- JS `body.split(';')`: the (possibly empty) segments between semicolons. -/
def splitSemiAux : List Char → List Char → List String
  | [], acc => [String.mk acc.reverse]
  | c :: rest, acc =>
    if c = ';' then String.mk acc.reverse :: splitSemiAux rest []
    else splitSemiAux rest (c :: acc)

def splitSemicolons (s : String) : List String := splitSemiAux s.toList []

/-- The regex test `/^[\s]*$/` guarding each split command: a command is
executed iff it is not whitespace-only. -/
def nonWsCommand (s : String) : Bool := !(s.toList.all isJsWhitespace)

/-- The statement loop of `CqlFile.apply()`: execute the commands in order,
aborting on the first failure (`i` is the index of the next driver call). -/
def runCommands (env : ApplyEnv) : List String → Nat → Except Unit Unit × List DbEffect
  | [], _ => (.ok (), [])
  | c :: rest, i =>
    if env.execOk i then
      let p := runCommands env rest (i + 1)
      (p.1, .execStmt c :: p.2)
    else (.error (), [.execStmt c])

/-- `CqlFile.apply()`: set `appliedOn`, save (`success` still false), execute
each non-whitespace command of the body split on `;`, then set a fresh
`appliedOn` and `success = true` and save again. Any driver failure
propagates as `.error`. -/
def cqlFileApply (env : ApplyEnv) (st : MigrationState) :
    Except Unit MigrationState × List DbEffect :=
  let st1 := { st with appliedOn := some (env.now 0) }
  let row1 := insertableObject st1
  if env.saveOk 0 then
    let cmds := (splitSemicolons st1.fileBody).filter nonWsCommand
    match runCommands env cmds 0 with
    | (.ok _, effs) =>
      let st2 := { st1 with appliedOn := some (env.now 1), success := true }
      let row2 := insertableObject st2
      if env.saveOk 1 then (.ok st2, .insertRow row1 :: effs ++ [.insertRow row2])
      else (.error (), .insertRow row1 :: effs ++ [.insertRow row2])
    | (.error _, effs) => (.error (), .insertRow row1 :: effs)
  else (.error (), [.insertRow row1])

/-- `Migration.apply()`: if hydrated with `success === true`, fail when the
stored checksum differs from the checksum of the current body, otherwise
skip; else set `checksum` and run the parent `apply()`. -/
def migrationApply (env : ApplyEnv) (st : MigrationState) :
    Except Unit MigrationState × List DbEffect :=
  if st.success then
    if st.checksum = some (getCqlChecksum st.fileBody) then (.ok st, [])
    else (.error (), [])
  else
    cqlFileApply env { st with checksum := some (getCqlChecksum st.fileBody) }

/-! ### Distributed lock (`Lock.ts`, query building from `CassandraClient.insert`) -/

/-- Driver outcome of a query: `.error` models a thrown driver exception,
`.ok b` a result set with `wasApplied() = b`. -/
structure LockEnv where
  result : String → List String → Except Unit Bool

def lockTable : String := "locks"

def lockName : String := "MIGRATION_LOCK"

/-- `SavableBase.TTL`/`Lock.TTL` is `0` (a number, hence not `== null`). -/
def lockTTL : Option Nat := some 0

/-- `CassandraClient.createQueryArrays` + `insert` for a record of string
fields: double-quoted column names from the keys, `?` placeholders, the
optional ` IF NOT EXISTS` and ` USING TTL n` suffixes, and a trailing `;`.
`none` models the "no savable fields" throw for an empty record. -/
def insertQuery (table : String) (record : List (String × String))
    (ttl : Option Nat) (ifNotExists : Bool) : Option (String × List String) :=
  if record.isEmpty then none
  else
    let fields := record.map (fun p => "\"" ++ p.1 ++ "\"")
    let placeholders := record.map (fun _ => "?")
    let ifNotExistsString := if ifNotExists then " IF NOT EXISTS" else ""
    let ttlString := match ttl with
      | none => ""
      | some n => " USING TTL " ++ toString n
    some ("INSERT INTO " ++ table ++ " (" ++ String.intercalate "," fields ++
          ") VALUES (" ++ String.intercalate "," placeholders ++ ")" ++
          ifNotExistsString ++ ttlString ++ ";",
          record.map (fun p => p.2))

/-- `acquire()`: conditional insert of `(name, client)` `IF NOT EXISTS`;
true iff the server reports was-applied; any exception gives false. -/
def lockAcquire (env : LockEnv) (client : String) : Bool :=
  match insertQuery lockTable [("name", lockName), ("client", client)] lockTTL true with
  | none => false
  | some (q, ps) =>
    match env.result q ps with
    | .ok b => b
    | .error _ => false

def releaseQuery : String := "DELETE FROM " ++ lockTable ++ " WHERE name = ? IF client = ?"

/-- `release()`: conditional delete guarded by `IF client = ?`; true iff
was-applied; any exception gives false. -/
def lockRelease (env : LockEnv) (client : String) : Bool :=
  match env.result releaseQuery [lockName, client] with
  | .ok b => b
  | .error _ => false

/-! ### Migrator (`Migrator.ts`)

The walk result is a list of files, each given by its path segments relative
to the migration root and its on-disk body. Driver and filesystem outcomes
come from `MEnv`; the run is summarised as a list of events plus an outcome. -/

structure SrcFile where
  segments : List String
  body : String
deriving DecidableEq, Repr

/-- A row of the `migrations` table as hydrated by
`Migration.fillFromDatastoreIfExists`. -/
structure StoredRow where
  applied_on : Option Nat
  checksum : Option String
  success : Bool
deriving DecidableEq, Repr

/-- Events observable in a run, in program order. -/
inductive MEv where
  | initApplied
  | lockAcquired
  | loadedBootstrap (keyspace file : String)
  | loadedMigration (keyspace service file : String)
  | appliedBootstrap (keyspace file : String)
  | appliedMigration (keyspace service file : String)
  | schemaWait
  | lockReleased (ok : Bool)
  | exited (code : Nat)
deriving DecidableEq, Repr

/-- How the process run ends: `process.exit(code)`, or falling off the end
of `start()` without an exit call (the release-failure path). -/
inductive MOutcome where
  | exited (code : Nat)
  | noExit
deriving DecidableEq, Repr

/-- External outcomes for one run: whether the init script applies, whether
the lock is acquired, the result of the `i`-th `lock.release()` call, the
hydration row for a migration's coordinates, and whether each bootstrap or
migration apply succeeds (a migration "success" includes the
already-applied skip). -/
structure MEnv where
  bootstrapFilename : String
  initOk : Bool
  acquireOk : Bool
  releaseOk : Nat → Bool
  storedRow : String → String → String → Option StoredRow
  bootstrapOk : String → String → Bool
  migOk : String → String → Bool

/-- Construct and `init()` a `Migration` from a depth-2 file: coordinates
from the path segments, body canonicalized on load, state hydrated from the
`migrations` table when a row exists. -/
def mkMigration (env : MEnv) (f : SrcFile) : MigrationState :=
  let ks := f.segments.getD 0 ""
  let svc := f.segments.getD 1 ""
  let fl := f.segments.getD 2 ""
  let body := canonicalCql f.body
  match env.storedRow ks svc fl with
  | some row => ⟨ks, svc, fl, body, row.checksum, row.applied_on, row.success⟩
  | none => ⟨ks, svc, fl, body, none, none, false⟩

/-- `Migrator.getFileDepth`: segments of the relative path, minus one. -/
def fileDepth (f : SrcFile) : Nat := f.segments.length - 1

/-- The first classification arm of `loadFiles`: basename equals the
configured bootstrap filename and depth is 1. -/
def isBootstrapFile (bfn : String) (f : SrcFile) : Bool :=
  f.segments.getLast? = some bfn && fileDepth f = 1

/-- The hydrated state that makes `loadFiles` refuse to continue:
`success === false && appliedOn != null`. -/
def badHydration (m : MigrationState) : Bool :=
  !m.success && m.appliedOn.isSome

/-- Append a migration to its service's queue, inserting a new key at the
end on first occurrence (JS `Map` insertion order). -/
def insertMig (m : MigrationState) :
    List (String × List MigrationState) → List (String × List MigrationState)
  | [] => [(m.service, [m])]
  | (s, ms) :: rest =>
    if s = m.service then (s, ms ++ [m]) :: rest
    else (s, ms) :: insertMig m rest

/-- The walk loop of `Migrator.loadFiles`: classify each file, hydrate
migrations, and abort on a hydrated `success=false ∧ appliedOn≠null`
migration. Returns the load events and either an error or the accumulated
bootstraps (as (keyspace, file)) and the per-service queues. -/
def loadFilesGo (env : MEnv) :
    List SrcFile → List (String × String) → List (String × List MigrationState) →
    List MEv × Except Unit (List (String × String) × List (String × List MigrationState))
  | [], bs, qs => ([], .ok (bs, qs))
  | f :: rest, bs, qs =>
    if isBootstrapFile env.bootstrapFilename f then
      let ks := f.segments.getD 0 ""
      let fl := f.segments.getD 1 ""
      let p := loadFilesGo env rest (bs ++ [(ks, fl)]) qs
      (MEv.loadedBootstrap ks fl :: p.1, p.2)
    else if fileDepth f = 2 then
      let m := mkMigration env f
      if badHydration m then
        ([MEv.loadedMigration m.keyspace m.service m.file], .error ())
      else
        let p := loadFilesGo env rest bs (insertMig m qs)
        (MEv.loadedMigration m.keyspace m.service m.file :: p.1, p.2)
    else
      loadFilesGo env rest bs qs

/-- Lexicographic (code-unit) comparison of character lists, the order JS
`<` uses on strings. -/
def strLtChars : List Char → List Char → Bool
  | [], [] => false
  | [], _ :: _ => true
  | _ :: _, [] => false
  | a :: as, b :: bs => decide (a < b) || (!decide (b < a) && strLtChars as bs)

def strLt (a b : String) : Bool := strLtChars a.toList b.toList

def strLe (a b : String) : Bool := !strLt b a

/-- The comparator passed to `Array.sort`: ascending by `file`
(`a.file < b.file ? -1 : a.file > b.file ? 1 : 0`). -/
def fileLe (a b : MigrationState) : Bool := strLe a.file b.file

/-- The final sorting pass of `loadFiles` (JS `sort` is stable; so is
insertion sort). -/
def sortQueues (qs : List (String × List MigrationState)) :
    List (String × List MigrationState) :=
  qs.map (fun p => (p.1, List.insertionSort (fun a b => fileLe a b) p.2))

/-- `Migrator.loadFiles` over the walked file list. -/
def loadFilesModel (env : MEnv) (files : List SrcFile) :
    List MEv × Except Unit (List (String × String) × List (String × List MigrationState)) :=
  let p := loadFilesGo env files [] []
  match p.2 with
  | .ok (bs, qs) => (p.1, .ok (bs, sortQueues qs))
  | .error e => (p.1, .error e)

/-- `Migrator.applyBootstraps`: all bootstraps fire in one `Promise.all`;
each failure is caught, logged and rethrown, so a failing fan-out rejects
and the schema-agreement wait is skipped; on success the wait follows. -/
def applyBootstrapsModel (env : MEnv) (bs : List (String × String)) :
    List MEv × Except Unit Unit :=
  let evs := bs.map (fun p => MEv.appliedBootstrap p.1 p.2)
  if bs.all (fun p => env.bootstrapOk p.1 p.2) then
    (evs ++ [MEv.schemaWait], .ok ())
  else (evs, .error ())

/-- One round's heads: the first migration of each service queue. -/
def roundHeads (qs : List (String × List MigrationState)) : List MigrationState :=
  qs.filterMap (fun p => p.2.head?)

/-- The queues after a round: each queue loses its head, and a queue that
becomes empty is deleted from the map. -/
def roundRest (qs : List (String × List MigrationState)) :
    List (String × List MigrationState) :=
  qs.filterMap (fun p =>
    match p.2 with
    | [] => none
    | _ :: ms => if ms.isEmpty then none else some (p.1, ms))

def migEv (m : MigrationState) : MEv :=
  MEv.appliedMigration m.keyspace m.service m.file

def totalCount (qs : List (String × List MigrationState)) : Nat :=
  (qs.map (fun p => p.2.length)).sum

/-- The while-loop of `Migrator.applyMigrations`: each pass applies every
queue's head in one `Promise.all` (each failure caught, setting a shared
flag), then either throws the single round-failure error — skipping the
schema-agreement wait — or waits for schema agreement and continues. The
returned Bool is false iff a round failed. -/
def scheduleAux (ok : MigrationState → Bool) :
    Nat → List (String × List MigrationState) → List MEv × Bool
  | _, [] => ([], true)
  | 0, _ :: _ => ([], true)
  | fuel + 1, q :: qs =>
    let heads := roundHeads (q :: qs)
    let evs := heads.map migEv
    if heads.all ok then
      let p := scheduleAux ok fuel (roundRest (q :: qs))
      (evs ++ MEv.schemaWait :: p.1, p.2)
    else (evs, false)

/-- `Migrator.applyMigrations` (the fuel `totalCount qs + 1` dominates the
number of rounds, since every round shortens every nonempty queue). -/
def applyMigrationsModel (env : MEnv) (qs : List (String × List MigrationState)) :
    List MEv × Except Unit Unit :=
  let p := scheduleAux (fun m => env.migOk m.service m.file) (totalCount qs + 1) qs
  (p.1, if p.2 then .ok () else .error ())

/-- `Migrator.releaseLockAndExit(code)`: release, and on success
`process.exit(code)` (an omitted code exits 0); on failure log and return
without exiting. `idx` numbers the release call; `some c` means the process
exited. -/
def releaseLockAndExit (env : MEnv) (idx : Nat) (code : Nat) :
    List MEv × Option Nat :=
  if env.releaseOk idx then ([MEv.lockReleased true, MEv.exited code], some code)
  else ([MEv.lockReleased false], none)

/-- The failure epilogue of `Migrator.start`: `releaseLockAndExit(1)` from
the catch block; if that returns (release failed), control falls through to
the final `releaseLockAndExit()` — whose success exits with code 0. -/
def finishFailure (env : MEnv) : List MEv × MOutcome :=
  match releaseLockAndExit env 0 1 with
  | (tr, some c) => (tr, .exited c)
  | (tr, none) =>
    match releaseLockAndExit env 1 0 with
    | (tr2, some c) => (tr ++ tr2, .exited c)
    | (tr2, none) => (tr ++ tr2, .noExit)

/-- The success epilogue of `Migrator.start`: the final
`releaseLockAndExit()` with no code. -/
def finishSuccess (env : MEnv) : List MEv × MOutcome :=
  match releaseLockAndExit env 0 0 with
  | (tr, some c) => (tr, .exited c)
  | (tr, none) => (tr, .noExit)

/-- `Migrator.start`: init and acquire inside the first try (failure exits 1
directly, the lock was never held); then load, bootstrap and migrate inside
the second try, whose catch releases and exits 1; the success path releases
and exits with the omitted code. -/
def migratorStart (env : MEnv) (files : List SrcFile) : List MEv × MOutcome :=
  if !env.initOk then ([MEv.exited 1], .exited 1)
  else if !env.acquireOk then ([MEv.initApplied, MEv.exited 1], .exited 1)
  else
    let pre := [MEv.initApplied, MEv.lockAcquired]
    match loadFilesModel env files with
    | (ltr, .error _) =>
      let p := finishFailure env
      (pre ++ ltr ++ p.1, p.2)
    | (ltr, .ok (bs, qs)) =>
      match applyBootstrapsModel env bs with
      | (btr, .error _) =>
        let p := finishFailure env
        (pre ++ ltr ++ btr ++ p.1, p.2)
      | (btr, .ok _) =>
        match applyMigrationsModel env qs with
        | (mtr, .error _) =>
          let p := finishFailure env
          (pre ++ ltr ++ btr ++ mtr ++ p.1, p.2)
        | (mtr, .ok _) =>
          let p := finishSuccess env
          (pre ++ ltr ++ btr ++ mtr ++ p.1, p.2)

/-- True when the event is not an apply of a bootstrap or migration. -/
def notApplyEv : MEv → Bool
  | .appliedBootstrap _ _ => false
  | .appliedMigration _ _ _ => false
  | _ => true

/-- Whether anything inside the post-lock phase (load, bootstraps,
migrations) fails for this run. -/
def postLockFailed (env : MEnv) (files : List SrcFile) : Bool :=
  match (loadFilesModel env files).2 with
  | .error _ => true
  | .ok (bs, qs) =>
    match (applyBootstrapsModel env bs).2 with
    | .error _ => true
    | .ok _ =>
      match (applyMigrationsModel env qs).2 with
      | .error _ => true
      | .ok _ => false

/-! ### Derived predicates and concrete fixtures -/

/-- The applied-migration events of service `s`, in trace order. -/
def serviceEvents (s : String) (tr : List MEv) : List MEv :=
  tr.filter (fun ev =>
    match ev with
    | .appliedMigration _ s' _ => s' == s
    | _ => false)

/-- Well-formedness of the migrations map maintained by `loadFiles`:
services are distinct keys, every queue is nonempty, and every queued
migration carries its key as `service`. -/
def wfQueues (qs : List (String × List MigrationState)) : Prop :=
  (qs.map Prod.fst).Nodup ∧ ∀ p ∈ qs, p.2 ≠ [] ∧ ∀ m ∈ p.2, m.service = p.1

/-- A single-quote as a string. -/
def sqString : String := String.mk [squote]

/-- The spec's second canonicalization input,
`INSERT INTO foo.bar (baz) VALUES ('foo''s');`. -/
def insertExampleCql : String :=
  "INSERT INTO foo.bar (baz) VALUES (" ++ sqString ++ "foo" ++ sqString ++
    sqString ++ "s" ++ sqString ++ ");"

/-- Its expected canonical form. -/
def insertExampleCanonical : String :=
  "INSERT INTO foo . bar ( baz ) VALUES ( " ++ sqString ++ "foo" ++ sqString ++
    sqString ++ "s" ++ sqString ++ " ) ;"

/-- An apply environment where every driver call succeeds. -/
def applyEnvAllOk : ApplyEnv := ⟨fun i => i, fun _ => true, fun _ => true⟩

/-- An apply environment whose second executed statement fails. -/
def applyEnvFailSnd : ApplyEnv := ⟨fun i => i, fun _ => true, fun i => i == 0⟩

/-- A migration hydrated from a successful prior row whose stored checksum
matches its (unchanged) body. -/
def stApplied : MigrationState :=
  ⟨"ks", "svc", "0001.cql", "foo bar baz",
   some "ab07acbb1e496801937adfa772424bf7", some 3, true⟩

/-- A migration not applied before. -/
def stFresh : MigrationState :=
  ⟨"ks", "svc", "0001.cql", "CREATE a ; CREATE b ;", none, none, false⟩

/-- A lock environment whose driver always reports was-applied. -/
def lockEnvApplied : LockEnv := ⟨fun _ _ => .ok true⟩

/-- A migrator environment where everything succeeds and the state store is
empty. -/
def envAllOk : MEnv :=
  ⟨"bootstrap.cql", true, true, fun _ => true, fun _ _ _ => none,
   fun _ _ => true, fun _ _ => true⟩

/-- A migrator environment whose state store holds a failed
(`success=false`, `applied_on` set) row for `ks/svc/m1.cql`. -/
def envFailedRow : MEnv :=
  ⟨"bootstrap.cql", true, true, fun _ => true,
   fun ks svc fl =>
     if ks == "ks" && svc == "svc" && fl == "m1.cql" then
       some ⟨some 5, none, false⟩
     else none,
   fun _ _ => true, fun _ _ => true⟩

/-- Like `envFailedRow`, but the first `lock.release()` call fails and the
second succeeds. -/
def envReleaseRetry : MEnv :=
  ⟨"bootstrap.cql", true, true, fun i => i == 1,
   fun ks svc fl =>
     if ks == "ks" && svc == "svc" && fl == "m1.cql" then
       some ⟨some 5, none, false⟩
     else none,
   fun _ _ => true, fun _ _ => true⟩

/-- A keyspace bootstrap file. -/
def fileBoot : SrcFile := ⟨["ks", "bootstrap.cql"], "CREATE KEYSPACE ks;"⟩

/-- The migration whose hydrated row is failed in `envFailedRow`. -/
def fileBadMig : SrcFile := ⟨["ks", "svc", "m1.cql"], "CREATE t;"⟩

/-- A later migration file. -/
def fileM2 : SrcFile := ⟨["ks", "svc", "m2.cql"], "CREATE u;"⟩

/-- Concrete round-scheduler fixtures: service S1 has a1 then a2, service
S2 has b1. -/
def mA1 : MigrationState := ⟨"ks", "S1", "a1.cql", "CREATE a1;", none, none, false⟩

def mA2 : MigrationState := ⟨"ks", "S1", "a2.cql", "CREATE a2;", none, none, false⟩

def mB1 : MigrationState := ⟨"ks", "S2", "b1.cql", "CREATE b1;", none, none, false⟩

def qsRound : List (String × List MigrationState) :=
  [("S1", [mA1, mA2]), ("S2", [mB1])]

/-- Source files generating `qsRound` through `loadFiles`. -/
def filesRound : List SrcFile :=
  [⟨["ks", "S1", "a1.cql"], "CREATE a1;"⟩,
   ⟨["ks", "S1", "a2.cql"], "CREATE a2;"⟩,
   ⟨["ks", "S2", "b1.cql"], "CREATE b1;"⟩]

/-- A migrator environment where the applies of service S2 fail. -/
def envS2Fails : MEnv :=
  ⟨"bootstrap.cql", true, true, fun _ => true, fun _ _ _ => none,
   fun _ _ => true, fun s _ => !(s == "S2")⟩

/-! ### Helper lemmas: string comparison agrees with the lexicographic order -/

theorem strLtChars_iff : ∀ as bs : List Char, strLtChars as bs = true ↔ as < bs := by
  intro as
  induction as with
  | nil =>
    intro bs
    cases bs with
    | nil => simp [strLtChars]
    | cons b bs => simp [strLtChars]; exact List.Lex.nil
  | cons a as ih =>
    intro bs
    cases bs with
    | nil => simp [strLtChars]
    | cons b bs =>
      simp only [strLtChars, Bool.or_eq_true, Bool.and_eq_true, Bool.not_eq_true',
        decide_eq_true_eq, decide_eq_false_iff_not, ih]
      constructor
      · rintro (h | ⟨h1, h2⟩)
        · exact List.Lex.rel h
        · rcases lt_trichotomy a b with hab | hab | hab
          · exact List.Lex.rel hab
          · subst hab; exact List.Lex.cons h2
          · exact absurd hab h1
      · intro h
        cases h with
        | cons h' => exact Or.inr ⟨lt_irrefl _, h'⟩
        | rel h' => exact Or.inl h'

theorem strLe_iff (a b : String) : strLe a b = true ↔ a ≤ b := by
  rw [String.le_iff_toList_le]
  simp only [strLe, strLt, Bool.not_eq_true']
  constructor
  · intro h
    refine not_lt.mp ((strLtChars_iff b.toList a.toList).not.mp ?_)
    simp only [String.toList] at h
    simp [h, String.toList]
  · intro h
    by_contra hb
    simp only [Bool.not_eq_false] at hb
    exact absurd ((strLtChars_iff _ _).mp hb) (not_lt.mpr h)

theorem fileLe_total (a b : MigrationState) : fileLe a b = true ∨ fileLe b a = true := by
  simp only [fileLe, strLe_iff]
  exact le_total _ _

theorem fileLe_trans (a b c : MigrationState) :
    fileLe a b = true → fileLe b c = true → fileLe a c = true := by
  intro hab hbc
  simp only [fileLe, strLe_iff] at hab hbc ⊢
  exact le_trans hab hbc

/-! ### Helper lemmas: the statement loop of `CqlFile.apply` -/

theorem runCommands_allOk (env : ApplyEnv) (hok : ∀ i, env.execOk i = true) :
    ∀ (cmds : List String) (k : Nat),
      runCommands env cmds k = (.ok (), cmds.map DbEffect.execStmt) := by
  intro cmds
  induction cmds with
  | nil => intro k; rfl
  | cons c rest ih => intro k; simp [runCommands, hok, ih]

theorem runCommands_failAt (env : ApplyEnv) :
    ∀ (cmds : List String) (k j : Nat), j < cmds.length →
      (∀ i, i < j → env.execOk (k + i) = true) → env.execOk (k + j) = false →
      runCommands env cmds k = (.error (), (cmds.take (j + 1)).map DbEffect.execStmt) := by
  intro cmds
  induction cmds with
  | nil => intro k j hj; simp at hj
  | cons c rest ih =>
    intro k j hj hpre hj'
    match j with
    | 0 => simp at hj'; simp [runCommands, hj']
    | j' + 1 =>
      have h0 : env.execOk k = true := by simpa using hpre 0 (Nat.succ_pos _)
      have hrest := ih (k + 1) j' (by simpa using hj)
        (fun i hi => by
          have := hpre (i + 1) (by omega)
          simpa [Nat.add_assoc, Nat.add_comm 1 i] using this)
        (by
          have h : k + (j' + 1) = k + 1 + j' := by omega
          simpa [h] using hj')
      simp [runCommands, h0, hrest]

/-! ### C1 and C2: Migration.apply -/

/-- C1: a migration hydrated from a prior row with `success=true` performs no
database mutation in `apply()`: the effect list is empty, an error is thrown
iff the stored checksum differs from `getCqlChecksum` of the current canonical
body, and matching checksums return the object unchanged (the skip). -/
theorem c1_applied_migration_skip (env : ApplyEnv) (st : MigrationState)
    (h : st.success = true) :
    (migrationApply env st).2 = [] ∧
    ((migrationApply env st).1 = .error () ↔
      st.checksum ≠ some (getCqlChecksum st.fileBody)) ∧
    (st.checksum = some (getCqlChecksum st.fileBody) →
      migrationApply env st = (.ok st, [])) := by
  by_cases hc : st.checksum = some (getCqlChecksum st.fileBody) <;>
    simp [migrationApply, h, hc]

/-- Witness for C1: a hydrated successful migration with matching checksum
(canonical body `"foo bar baz"`) is skipped without effects. -/
theorem c1_applied_migration_skip_witness :
    migrationApply applyEnvAllOk stApplied = (.ok stApplied, []) :=
  (c1_applied_migration_skip applyEnvAllOk stApplied rfl).2.2 (by decide)

/-- C2: for a migration not previously applied successfully, `apply()` sets the
checksum, writes a `success=false` row stamped with the first `now()` before
executing anything, executes the non-whitespace segments of the canonical body
sequentially in order, and writes a `success=true` row with a fresh `now()`
only after every segment succeeds; a failing segment aborts the script with
only the `success=false` row written. -/
theorem c2_two_phase_apply (env : ApplyEnv) (st : MigrationState)
    (h : st.success = false) :
    ((∀ i, env.saveOk i = true) → (∀ i, env.execOk i = true) →
      migrationApply env st =
        (.ok { st with checksum := some (getCqlChecksum st.fileBody),
                       appliedOn := some (env.now 1), success := true },
         DbEffect.insertRow ⟨st.keyspace, st.service, st.file, st.fileBody,
             some (env.now 0), some (getCqlChecksum st.fileBody), false⟩ ::
           ((splitSemicolons st.fileBody).filter nonWsCommand).map DbEffect.execStmt ++
           [DbEffect.insertRow ⟨st.keyspace, st.service, st.file, st.fileBody,
             some (env.now 1), some (getCqlChecksum st.fileBody), true⟩])) ∧
    (∀ j, (∀ i, env.saveOk i = true) →
      j < ((splitSemicolons st.fileBody).filter nonWsCommand).length →
      (∀ i, i < j → env.execOk i = true) → env.execOk j = false →
      migrationApply env st =
        (.error (),
         DbEffect.insertRow ⟨st.keyspace, st.service, st.file, st.fileBody,
             some (env.now 0), some (getCqlChecksum st.fileBody), false⟩ ::
           ((((splitSemicolons st.fileBody).filter nonWsCommand).take (j + 1)).map
             DbEffect.execStmt))) := by
  constructor
  · intro hsave hexec
    simp [migrationApply, h, cqlFileApply, hsave 0, hsave 1,
          runCommands_allOk env hexec, insertableObject]
  · intro j hsave hj hpre hjf
    have hfail := runCommands_failAt env
      ((splitSemicolons st.fileBody).filter nonWsCommand) 0 j hj
      (fun i hi => by simpa using hpre i hi) (by simpa using hjf)
    simp [migrationApply, h, cqlFileApply, hsave 0, hfail, insertableObject]

/-- Witness for C2 at concrete inputs: the all-success branch on a two-command
body, and the aborting branch when the second command fails. -/
theorem c2_two_phase_apply_witness :
    migrationApply applyEnvAllOk stFresh =
      (.ok ⟨"ks", "svc", "0001.cql", "CREATE a ; CREATE b ;",
          some (getCqlChecksum "CREATE a ; CREATE b ;"), some 1, true⟩,
       [DbEffect.insertRow ⟨"ks", "svc", "0001.cql", "CREATE a ; CREATE b ;",
           some 0, some (getCqlChecksum "CREATE a ; CREATE b ;"), false⟩,
        DbEffect.execStmt "CREATE a ", DbEffect.execStmt " CREATE b ",
        DbEffect.insertRow ⟨"ks", "svc", "0001.cql", "CREATE a ; CREATE b ;",
           some 1, some (getCqlChecksum "CREATE a ; CREATE b ;"), true⟩]) ∧
    migrationApply applyEnvFailSnd stFresh =
      (.error (),
       [DbEffect.insertRow ⟨"ks", "svc", "0001.cql", "CREATE a ; CREATE b ;",
           some 0, some (getCqlChecksum "CREATE a ; CREATE b ;"), false⟩,
        DbEffect.execStmt "CREATE a ", DbEffect.execStmt " CREATE b "]) := by
  constructor
  · have h := (c2_two_phase_apply applyEnvAllOk stFresh rfl).1
      (fun _ => rfl) (fun _ => rfl)
    exact h.trans (by rfl)
  · have h := (c2_two_phase_apply applyEnvFailSnd stFresh rfl).2 1
      (fun _ => rfl) (by decide)
      (fun i hi => by interval_cases i; rfl) (by decide)
    exact h.trans (by rfl)

/-! ### C6: the lock -/

/-- C6: `acquire()` returns true exactly when the driver reports the
conditional `INSERT … IF NOT EXISTS` of `(name, client)` as applied, and
`release()` returns true exactly when the conditional `DELETE … IF client = ?`
is reported applied; a driver exception (the `.error` outcome) makes either
return false rather than propagate. -/
theorem c6_lock_conditional_semantics (env : LockEnv) (client : String) :
    insertQuery lockTable [("name", lockName), ("client", client)] lockTTL true =
      some ("INSERT INTO locks (\"name\",\"client\") VALUES (?,?) IF NOT EXISTS USING TTL 0;",
            ["MIGRATION_LOCK", client]) ∧
    (lockAcquire env client = true ↔
      env.result "INSERT INTO locks (\"name\",\"client\") VALUES (?,?) IF NOT EXISTS USING TTL 0;"
        ["MIGRATION_LOCK", client] = .ok true) ∧
    releaseQuery = "DELETE FROM locks WHERE name = ? IF client = ?" ∧
    (lockRelease env client = true ↔
      env.result "DELETE FROM locks WHERE name = ? IF client = ?"
        ["MIGRATION_LOCK", client] = .ok true) ∧
    (env.result "INSERT INTO locks (\"name\",\"client\") VALUES (?,?) IF NOT EXISTS USING TTL 0;"
        ["MIGRATION_LOCK", client] = .error () → lockAcquire env client = false) ∧
    (env.result "DELETE FROM locks WHERE name = ? IF client = ?"
        ["MIGRATION_LOCK", client] = .error () → lockRelease env client = false) := by
  have hq : insertQuery lockTable [("name", lockName), ("client", client)] lockTTL true =
      some ("INSERT INTO locks (\"name\",\"client\") VALUES (?,?) IF NOT EXISTS USING TTL 0;",
            ["MIGRATION_LOCK", client]) := rfl
  have hrel : releaseQuery = "DELETE FROM locks WHERE name = ? IF client = ?" := rfl
  have hname : lockName = "MIGRATION_LOCK" := rfl
  refine ⟨hq, ?_, hrel, ?_, ?_, ?_⟩
  · rw [lockAcquire, hq]
    cases hr : env.result
        "INSERT INTO locks (\"name\",\"client\") VALUES (?,?) IF NOT EXISTS USING TTL 0;"
        ["MIGRATION_LOCK", client] with
    | error e => simp [hr]
    | ok b => cases b <;> simp [hr]
  · rw [lockRelease, hrel, hname]
    cases hr : env.result "DELETE FROM locks WHERE name = ? IF client = ?"
        ["MIGRATION_LOCK", client] with
    | error e => simp [hr]
    | ok b => cases b <;> simp [hr]
  · intro hr
    rw [lockAcquire, hq]
    simp [hr]
  · intro hr
    rw [lockRelease, hrel, hname]
    simp [hr]

/-- Witness for C6: with a driver that always reports was-applied, both
acquire and release return true. -/
theorem c6_lock_conditional_semantics_witness :
    lockAcquire lockEnvApplied "c0ffee" = true ∧
    lockRelease lockEnvApplied "c0ffee" = true :=
  ⟨(c6_lock_conditional_semantics lockEnvApplied "c0ffee").2.1.mpr rfl,
   (c6_lock_conditional_semantics lockEnvApplied "c0ffee").2.2.2.1.mpr rfl⟩

/-! ### C8 and C9: canonicalizer and checksum vectors -/

/-- C8: `canonicalizeCql` maps the spec's two concrete inputs to exactly the
given canonical outputs, preserving the escaped string literal as one token. -/
theorem c8_canonicalize_examples :
    canonicalizeCql "/* c */\nCREATE TABLE foo.bar (\n  baz text, -- x\n  PRIMARY KEY ((baz))\n);" =
      some "CREATE TABLE foo . bar ( baz text , PRIMARY KEY ( ( baz ) ) ) ;" ∧
    canonicalizeCql insertExampleCql = some insertExampleCanonical := by
  constructor
  · rfl
  · rfl

/-- C9: `getCqlChecksum` is the hex-encoded MD5 of the UTF-8 bytes of its
input; on the three durability vectors it produces exactly the recorded
digests. -/
theorem c9_checksum_vectors :
    getCqlChecksum "this is some string" = "0e1eb663ad4cbb70b7d262f813bfbec4" ∧
    getCqlChecksum "this is another string" = "7cd1136eb26ea58d5ac6762168db7f7f" ∧
    getCqlChecksum "foo bar baz" = "ab07acbb1e496801937adfa772424bf7" := by
  refine ⟨rfl, rfl, rfl⟩

/-! ### C10: totality of the lexer and canonicalizer -/

theorem matchStringAux_rest_le (q : Char) :
    ∀ (n : Nat) (cs : List Char), cs.length ≤ n →
      ∀ t r, matchStringAux q cs = some (t, r) → r.length ≤ cs.length := by
  intro n
  induction n with
  | zero =>
    intro cs hcs t r h
    match cs, hcs with
    | [], _ => simp [matchStringAux] at h
  | succ n ih =>
    intro cs hcs t r h
    match cs with
    | [] => simp [matchStringAux] at h
    | [c] =>
      by_cases hcq : c = q
      · simp [matchStringAux, hcq] at h
        simp [← h.2]
      · simp [matchStringAux, hcq] at h
    | c :: c2 :: rest2 =>
      by_cases hcq : c = q
      · by_cases hc2 : c2 = q
        · cases hm : matchStringAux q rest2 with
          | some p =>
            simp [matchStringAux, hcq, hc2, hm] at h
            have hrec := ih rest2 (by simp at hcs; omega) p.1 p.2 (by simp [hm])
            rw [← h.2]
            simp; omega
          | none =>
            simp [matchStringAux, hcq, hc2, hm] at h
            rw [← h.2]; simp
        · simp [matchStringAux, hcq, hc2] at h
          rw [← h.2]; simp
      · cases hm : matchStringAux q (c2 :: rest2) with
        | some p =>
          simp [matchStringAux, hcq, hm] at h
          have hrec := ih (c2 :: rest2) (by simp at hcs ⊢; omega) p.1 p.2 hm
          rw [← h.2]
          simp at hrec ⊢; omega
        | none =>
          simp [matchStringAux, hcq, hm] at h

theorem matchStrTok_rest_lt (cs : List Char) (t r : List Char)
    (h : matchStrTok cs = some (t, r)) : r.length < cs.length := by
  match cs with
  | [] => simp [matchStrTok] at h
  | c :: rest =>
    by_cases hc : (c = squote || c = '"' : Bool)
    · rw [matchStrTok, if_pos hc] at h
      cases hm : matchStringAux c rest with
      | some p =>
        rw [hm] at h
        simp at h
        have := matchStringAux_rest_le c rest.length rest le_rfl p.1 p.2 hm
        rw [← h.2]
        simp; omega
      | none => rw [hm] at h; simp at h
    · rw [matchStrTok, if_neg hc] at h
      simp at h

theorem findBlockEnd_rest_lt :
    ∀ (cs : List Char) (t r : List Char), findBlockEnd cs = some (t, r) →
      r.length < cs.length := by
  intro cs
  induction cs with
  | nil => intro t r h; simp [findBlockEnd] at h
  | cons c rest ih =>
    intro t r h
    match rest with
    | [] => simp [findBlockEnd] at h
    | c2 :: rest2 =>
      by_cases hb : (c = '*' && c2 = '/' : Bool)
      · rw [findBlockEnd, if_pos hb] at h
        simp at h
        rw [← h.2]; simp; omega
      · rw [findBlockEnd, if_neg hb] at h
        cases hm : findBlockEnd (c2 :: rest2) with
        | some p =>
          rw [hm] at h; simp at h
          have := ih p.1 p.2 hm
          rw [← h.2]
          simp at this ⊢; omega
        | none => rw [hm] at h; simp at h

theorem matchComment_rest_lt (cs : List Char) (t r : List Char)
    (h : matchComment cs = some (t, r)) : r.length < cs.length := by
  match cs with
  | [] => simp [matchComment] at h
  | [c] => simp [matchComment] at h
  | c :: c2 :: rest =>
    by_cases h1 : (c = '/' && c2 = '*' : Bool)
    · rw [matchComment, if_pos h1] at h
      cases hm : findBlockEnd rest with
      | some p =>
        rw [hm] at h; simp at h
        have := findBlockEnd_rest_lt rest p.1 p.2 hm
        rw [← h.2]; simp; omega
      | none => rw [hm] at h; simp at h
    · rw [matchComment, if_neg h1] at h
      by_cases h2 : (c = '/' && c2 = '/' : Bool)
      · rw [if_pos h2] at h
        simp at h
        rw [← h.2]
        simp [List.length_drop]
        omega
      · rw [if_neg h2] at h
        by_cases h3 : (c = '-' && c2 = '-' : Bool)
        · rw [if_pos h3] at h
          simp at h
          rw [← h.2]
          simp [List.length_drop]
          omega
        · rw [if_neg h3] at h
          simp at h

theorem takeHexN_rest_len :
    ∀ (n : Nat) (cs : List Char) (g r : List Char),
      takeHexN n cs = some (g, r) → r.length + n = cs.length := by
  intro n
  induction n with
  | zero => intro cs g r h; simp [takeHexN] at h; simp [← h.2]
  | succ n ih =>
    intro cs g r h
    match cs with
    | [] => simp [takeHexN] at h
    | c :: rest =>
      by_cases hc : isHexLower c
      · rw [takeHexN, if_pos hc] at h
        cases hm : takeHexN n rest with
        | some p =>
          rw [hm] at h; simp at h
          have := ih rest p.1 p.2 hm
          rw [← h.2]; simp; omega
        | none => rw [hm] at h; simp at h
      · rw [takeHexN, if_neg hc] at h; simp at h

theorem expectDash_rest_len (cs r : List Char) (h : expectDash cs = some r) :
    r.length + 1 = cs.length := by
  match cs with
  | [] => simp [expectDash] at h
  | c :: rest =>
    by_cases hc : c = '-'
    · rw [expectDash, if_pos hc] at h
      simp at h; simp [← h]
    · rw [expectDash, if_neg hc] at h; simp at h

theorem matchUuid_rest_lt (cs : List Char) (t r : List Char)
    (h : matchUuid cs = some (t, r)) : r.length < cs.length := by
  rw [matchUuid] at h
  simp only [Option.bind_eq_some, Option.map_eq_some'] at h
  obtain ⟨p1, h1, s1, hd1, p2, h2, s2, hd2, p3, h3, s3, hd3, p4, h4, s4, hd4, p5, h5, hfin⟩ := h
  have e1 := takeHexN_rest_len 8 cs p1.1 p1.2 (by simpa using h1)
  have e2 := expectDash_rest_len p1.2 s1 hd1
  have e3 := takeHexN_rest_len 4 s1 p2.1 p2.2 (by simpa using h2)
  have e4 := expectDash_rest_len p2.2 s2 hd2
  have e5 := takeHexN_rest_len 4 s2 p3.1 p3.2 (by simpa using h3)
  have e6 := expectDash_rest_len p3.2 s3 hd3
  have e7 := takeHexN_rest_len 4 s3 p4.1 p4.2 (by simpa using h4)
  have e8 := expectDash_rest_len p4.2 s4 hd4
  have e9 := takeHexN_rest_len 12 s4 p5.1 p5.2 (by simpa using h5)
  have hr : r = p5.2 := by
    have := congrArg Prod.snd hfin
    simpa using this.symm
  subst hr
  omega

theorem matchWs_rest_lt (cs : List Char) (t r : List Char)
    (h : matchWs cs = some (t, r)) : r.length < cs.length := by
  rw [matchWs] at h
  by_cases he : (cs.takeWhile isJsWhitespace).isEmpty
  · rw [if_pos he] at h; simp at h
  · rw [if_neg he] at h
    simp at h
    have hpos : 0 < (cs.takeWhile isJsWhitespace).length := by
      cases hq : cs.takeWhile isJsWhitespace with
      | nil => rw [hq] at he; simp at he
      | cons a l => simp [hq]
    have hle : (cs.takeWhile isJsWhitespace).length ≤ cs.length := by
      simpa using (List.takeWhile_sublist _).length_le
    rw [← h.2]
    simp [List.length_drop]
    omega

theorem matchSymbol_rest_lt (cs : List Char) (t r : List Char)
    (h : matchSymbol cs = some (t, r)) : r.length < cs.length := by
  match cs with
  | [] => simp [matchSymbol] at h
  | c :: rest =>
    by_cases hc : isWordChar c
    · rw [matchSymbol, if_pos hc] at h; simp at h
    · rw [matchSymbol, if_neg hc] at h
      simp at h
      rw [← h.2]; simp

theorem matchIdent_rest_lt (cs : List Char) (t r : List Char)
    (h : matchIdent cs = some (t, r)) : r.length < cs.length := by
  rw [matchIdent] at h
  by_cases he : (cs.takeWhile isWordChar).isEmpty
  · rw [if_pos he] at h; simp at h
  · rw [if_neg he] at h
    simp at h
    have hpos : 0 < (cs.takeWhile isWordChar).length := by
      cases hq : cs.takeWhile isWordChar with
      | nil => rw [hq] at he; simp at he
      | cons a l => simp [hq]
    have hle : (cs.takeWhile isWordChar).length ≤ cs.length := by
      simpa using (List.takeWhile_sublist _).length_le
    rw [← h.2]
    simp [List.length_drop]
    omega

theorem firstMatch_rest_lt (cs : List Char) (t : TokType) (tok r : List Char)
    (h : firstMatch cs = some (t, tok, r)) : r.length < cs.length := by
  rw [firstMatch] at h
  cases h1 : matchStrTok cs with
  | some p =>
    rw [h1] at h; simp at h
    have hlt := matchStrTok_rest_lt cs p.1 p.2 (by simpa using h1)
    rw [h.2] at hlt; simpa using hlt
  | none =>
    rw [h1] at h
    cases h2 : matchComment cs with
    | some p =>
      rw [h2] at h; simp at h
      have hlt := matchComment_rest_lt cs p.1 p.2 (by simpa using h2)
      rw [h.2] at hlt; simpa using hlt
    | none =>
      rw [h2] at h
      cases h3 : matchUuid cs with
      | some p =>
        rw [h3] at h; simp at h
        have hlt := matchUuid_rest_lt cs p.1 p.2 (by simpa using h3)
        rw [h.2] at hlt; simpa using hlt
      | none =>
        rw [h3] at h
        cases h4 : matchWs cs with
        | some p =>
          rw [h4] at h; simp at h
          have hlt := matchWs_rest_lt cs p.1 p.2 (by simpa using h4)
          rw [h.2] at hlt; simpa using hlt
        | none =>
          rw [h4] at h
          cases h5 : matchSymbol cs with
          | some p =>
            rw [h5] at h; simp at h
            have hlt := matchSymbol_rest_lt cs p.1 p.2 (by simpa using h5)
            rw [h.2] at hlt; simpa using hlt
          | none =>
            rw [h5] at h
            cases h6 : matchIdent cs with
            | some p =>
              rw [h6] at h; simp at h
              have hlt := matchIdent_rest_lt cs p.1 p.2 (by simpa using h6)
              rw [h.2] at hlt; simpa using hlt
            | none => rw [h6] at h; simp at h

theorem firstMatch_progress (c : Char) (rest : List Char) :
    (firstMatch (c :: rest)).isSome = true := by
  rw [firstMatch]
  cases h1 : matchStrTok (c :: rest) with
  | some p => simp
  | none =>
    cases h2 : matchComment (c :: rest) with
    | some p => simp
    | none =>
      cases h3 : matchUuid (c :: rest) with
      | some p => simp
      | none =>
        cases h4 : matchWs (c :: rest) with
        | some p => simp
        | none =>
          cases h5 : matchSymbol (c :: rest) with
          | some p => simp
          | none =>
            cases h6 : matchIdent (c :: rest) with
            | some p => simp
            | none =>
              exfalso
              by_cases hw : isWordChar c
              · rw [matchIdent] at h6
                have hcons : (c :: rest).takeWhile isWordChar =
                    c :: rest.takeWhile isWordChar := by
                  simp [List.takeWhile_cons, hw]
                rw [hcons] at h6
                simp at h6
              · rw [matchSymbol, if_neg (by simp [hw])] at h5
                simp at h5

theorem lexAux_isSome :
    ∀ (fuel : Nat) (cs : List Char), cs.length ≤ fuel →
      (lexAux fuel cs).isSome = true := by
  intro fuel
  induction fuel with
  | zero =>
    intro cs hcs
    match cs, hcs with
    | [], _ => simp [lexAux]
  | succ n ih =>
    intro cs hcs
    match cs, hcs with
    | [], _ => simp [lexAux]
    | c :: rest, hcs =>
      have hp := firstMatch_progress c rest
      rw [Option.isSome_iff_exists] at hp
      obtain ⟨⟨t, tok, r⟩, hm⟩ := hp
      have hlt := firstMatch_rest_lt (c :: rest) t tok r hm
      have hle : r.length ≤ n := by simp at hlt hcs; omega
      have hih := ih r hle
      rw [Option.isSome_iff_exists] at hih
      obtain ⟨l, hl⟩ := hih
      simp [lexAux, hm, hl]

/-- C10: lexing always succeeds — at every position the single-character
symbol class `\W` and the identifier class `[A-Za-z0-9_]+` together cover
every character — so the "lexer throws" branch is unreachable and
`canonicalizeCql` returns a value for every input string. -/
theorem c10_lexer_total (s : String) : (canonicalizeCql s).isSome = true := by
  have h := lexAux_isSome s.toList.length s.toList le_rfl
  rw [Option.isSome_iff_exists] at h
  obtain ⟨l, hl⟩ := h
  simp only [canonicalizeCql, getTokens]
  rw [hl]
  simp

/-! ### C5: round error aggregation -/

/-- C5: when at least one head of the current round fails, every head of that
round is still applied (the round's full event list appears in the trace),
afterwards `applyMigrations` raises the single round-failure error, and the
schema-agreement wait that normally follows the round is skipped. -/
theorem c5_round_error_aggregation (env : MEnv)
    (qs : List (String × List MigrationState))
    (hfail : ∃ m ∈ roundHeads qs, env.migOk m.service m.file = false) :
    applyMigrationsModel env qs = ((roundHeads qs).map migEv, .error ()) ∧
    MEv.schemaWait ∉ (applyMigrationsModel env qs).1 := by
  match qs with
  | [] => simp [roundHeads] at hfail
  | q :: qs' =>
    obtain ⟨m, hm, hmf⟩ := hfail
    have hall : (roundHeads (q :: qs')).all
        (fun x => env.migOk x.service x.file) = false := by
      rw [List.all_eq_false]
      exact ⟨m, hm, by simp [hmf]⟩
    have hs : scheduleAux (fun x => env.migOk x.service x.file)
        (totalCount (q :: qs') + 1) (q :: qs') =
        ((roundHeads (q :: qs')).map migEv, false) := by
      rw [scheduleAux, hall]
      simp
    constructor
    · rw [applyMigrationsModel, hs]
      simp
    · rw [applyMigrationsModel, hs]
      simp [migEv]

/-- Witness for C5: in the concrete two-service round `[a1, b1]` with S2's
apply failing, both round members are applied, the run errors, and no
schema wait happens. -/
theorem c5_round_error_aggregation_witness :
    applyMigrationsModel envS2Fails qsRound =
      ([migEv mA1, migEv mB1], .error ()) ∧
    MEv.schemaWait ∉ (applyMigrationsModel envS2Fails qsRound).1 := by
  have h := c5_round_error_aggregation envS2Fails qsRound
    ⟨mB1, by decide, by decide⟩
  exact ⟨h.1.trans (by rfl), h.2⟩

/-! ### C3: a failed hydrated migration aborts during loading -/

theorem loadFilesGo_trace_notApply (env : MEnv) :
    ∀ (files : List SrcFile) (bs : List (String × String))
      (qs : List (String × List MigrationState)),
      ((loadFilesGo env files bs qs).1).all notApplyEv = true := by
  intro files
  induction files with
  | nil => intro bs qs; simp [loadFilesGo]
  | cons f rest ih =>
    intro bs qs
    by_cases hb : isBootstrapFile env.bootstrapFilename f
    · simp [loadFilesGo, hb, notApplyEv, ih]
    · by_cases hd : fileDepth f = 2
      · by_cases hbad : badHydration (mkMigration env f)
        · simp [loadFilesGo, hb, hd, hbad, notApplyEv]
        · simp [loadFilesGo, hb, hd, hbad, notApplyEv, ih]
      · simp [loadFilesGo, hb, hd, ih]

theorem isBootstrapFile_ne_of_depth2 (bfn : String) (f : SrcFile)
    (h : fileDepth f = 2) : isBootstrapFile bfn f = false := by
  simp [isBootstrapFile, h]

theorem loadFilesGo_bad_prefix (env : MEnv) (f : SrcFile) (post : List SrcFile)
    (hdepth : fileDepth f = 2)
    (hbad : badHydration (mkMigration env f) = true) :
    ∀ (pre : List SrcFile) (bs : List (String × String))
      (qs : List (String × List MigrationState)),
      (∀ g ∈ pre, ¬(fileDepth g = 2 ∧ badHydration (mkMigration env g) = true)) →
      loadFilesGo env (pre ++ f :: post) bs qs =
        ((loadFilesGo env pre bs qs).1 ++
          [MEv.loadedMigration (mkMigration env f).keyspace
            (mkMigration env f).service (mkMigration env f).file],
         .error ()) := by
  intro pre
  induction pre with
  | nil =>
    intro bs qs _
    have hb := isBootstrapFile_ne_of_depth2 env.bootstrapFilename f hdepth
    simp [loadFilesGo, hb, hdepth, hbad]
  | cons g rest ih =>
    intro bs qs hpre
    have hgood : ¬(fileDepth g = 2 ∧ badHydration (mkMigration env g) = true) :=
      hpre g (by simp)
    have hrest : ∀ x ∈ rest, ¬(fileDepth x = 2 ∧ badHydration (mkMigration env x) = true) :=
      fun x hx => hpre x (by simp [hx])
    by_cases hb : isBootstrapFile env.bootstrapFilename g
    · simp [loadFilesGo, hb, ih _ _ hrest]
    · by_cases hd : fileDepth g = 2
      · have hnb : badHydration (mkMigration env g) = false := by
          rcases Bool.eq_false_or_eq_true (badHydration (mkMigration env g)) with h | h
          · exact absurd ⟨hd, h⟩ hgood
          · exact h
        simp [loadFilesGo, hb, hd, hnb, ih _ _ hrest]
      · simp [loadFilesGo, hb, hd, ih _ _ hrest]

theorem loadFilesModel_trace_eq_go (env : MEnv) (files : List SrcFile) :
    (loadFilesModel env files).1 = (loadFilesGo env files [] []).1 := by
  rw [loadFilesModel]
  cases h : (loadFilesGo env files [] []).2 with
  | ok p => obtain ⟨bs, qs⟩ := p; simp [h]
  | error e => simp [h]

theorem finishFailure_trace_notApply (env : MEnv) :
    ((finishFailure env).1).all notApplyEv = true := by
  rw [finishFailure]
  by_cases h0 : env.releaseOk 0
  · simp [releaseLockAndExit, h0, notApplyEv]
  · by_cases h1 : env.releaseOk 1
    · simp [releaseLockAndExit, h0, h1, notApplyEv]
    · simp [releaseLockAndExit, h0, h1, notApplyEv]

/-- C3: if the walked file list contains a migration whose hydrated row has
`success = false` and a non-null `appliedOn` (all earlier files being
unobjectionable), loading stops right at that file with the fatal error — its
load event is the last trace event of the loading phase — and the whole run
performs no bootstrap or migration apply at all. -/
theorem c3_failed_migration_aborts_load (env : MEnv)
    (files pre post : List SrcFile) (f : SrcFile)
    (hsplit : files = pre ++ f :: post)
    (hpre : ∀ g ∈ pre, ¬(fileDepth g = 2 ∧ badHydration (mkMigration env g) = true))
    (hdepth : fileDepth f = 2)
    (hbad : badHydration (mkMigration env f) = true) :
    (loadFilesModel env files).2 = .error () ∧
    (loadFilesModel env files).1 =
      (loadFilesModel env pre).1 ++
        [MEv.loadedMigration (mkMigration env f).keyspace
          (mkMigration env f).service (mkMigration env f).file] ∧
    (migratorStart env files).1.all notApplyEv = true := by
  subst hsplit
  have hgo := loadFilesGo_bad_prefix env f post hdepth hbad pre [] [] hpre
  have herr : (loadFilesModel env (pre ++ f :: post)).2 = .error () := by
    rw [loadFilesModel, hgo]
  have htr : (loadFilesModel env (pre ++ f :: post)).1 =
      (loadFilesModel env pre).1 ++
        [MEv.loadedMigration (mkMigration env f).keyspace
          (mkMigration env f).service (mkMigration env f).file] := by
    rw [loadFilesModel_trace_eq_go, loadFilesModel_trace_eq_go, hgo]
  refine ⟨herr, htr, ?_⟩
  cases hi : env.initOk with
  | false => rw [migratorStart]; simp [hi, notApplyEv]
  | true =>
    cases ha : env.acquireOk with
    | false => rw [migratorStart]; simp [hi, ha, notApplyEv]
    | true =>
      rcases hlm : loadFilesModel env (pre ++ f :: post) with ⟨ltr, lres⟩
      rw [hlm] at herr
      simp only at herr
      subst herr
      have hltr : ltr.all notApplyEv = true := by
        have h1 : ltr = (loadFilesGo env (pre ++ f :: post) [] []).1 := by
          rw [← loadFilesModel_trace_eq_go, hlm]
        exact h1 ▸ loadFilesGo_trace_notApply env (pre ++ f :: post) [] []
      rw [migratorStart]
      simp [hi, ha, hlm, notApplyEv, hltr, finishFailure_trace_notApply env,
        List.all_append, Bool.and_eq_true]

/-- Witness for C3 on a concrete layout: a good bootstrap, then a migration
hydrated `success=false` with `appliedOn` set, then a further migration that
is never reached. -/
theorem c3_failed_migration_aborts_load_witness :
    (loadFilesModel envFailedRow [fileBoot, fileBadMig, fileM2]).2 = .error () ∧
    (loadFilesModel envFailedRow [fileBoot, fileBadMig, fileM2]).1 =
      (loadFilesModel envFailedRow [fileBoot]).1 ++
        [MEv.loadedMigration "ks" "svc" "m1.cql"] ∧
    (migratorStart envFailedRow [fileBoot, fileBadMig, fileM2]).1.all notApplyEv = true := by
  have h := c3_failed_migration_aborts_load envFailedRow
    [fileBoot, fileBadMig, fileM2] [fileBoot] [fileM2] fileBadMig rfl
    (by intro g hg; simp at hg; subst hg; intro hh; exact absurd hh.1 (by decide))
    (by decide) (by decide)
  refine ⟨h.1, ?_, h.2.2⟩
  have := h.2.1
  simpa using this

/-! ### C7: exit codes -/

theorem migratorStart_outcome (env : MEnv) (files : List SrcFile) :
    (migratorStart env files).2 =
      if env.initOk = false then .exited 1
      else if env.acquireOk = false then .exited 1
      else if postLockFailed env files = true then
        (if env.releaseOk 0 = true then .exited 1
         else if env.releaseOk 1 = true then .exited 0 else .noExit)
      else (if env.releaseOk 0 = true then .exited 0 else .noExit) := by
  rw [migratorStart]
  cases hi : env.initOk with
  | false => simp [hi]
  | true =>
    cases ha : env.acquireOk with
    | false => simp [hi, ha]
    | true =>
      simp only [hi, ha, Bool.not_true, Bool.false_eq_true, if_false,
        Bool.true_eq_false]
      rcases hl : loadFilesModel env files with ⟨ltr, lres⟩
      cases lres with
      | error e =>
        have hpf : postLockFailed env files = true := by
          rw [postLockFailed, hl]
        rw [hpf]
        by_cases hr0 : env.releaseOk 0 = true
        · simp [finishFailure, releaseLockAndExit, hr0]
        · by_cases hr1 : env.releaseOk 1 = true
          · simp [finishFailure, releaseLockAndExit, hr0, hr1]
          · simp [finishFailure, releaseLockAndExit, hr0, hr1]
      | ok p =>
        obtain ⟨bs, qs⟩ := p
        rcases hb : applyBootstrapsModel env bs with ⟨btr, bres⟩
        cases bres with
        | error e =>
          have hpf : postLockFailed env files = true := by
            rw [postLockFailed, hl]
            simp only [hb]
          rw [hpf]
          by_cases hr0 : env.releaseOk 0 = true
          · simp [finishFailure, releaseLockAndExit, hr0, hb]
          · by_cases hr1 : env.releaseOk 1 = true
            · simp [finishFailure, releaseLockAndExit, hr0, hr1, hb]
            · simp [finishFailure, releaseLockAndExit, hr0, hr1, hb]
        | ok u =>
          rcases hm : applyMigrationsModel env qs with ⟨mtr, mres⟩
          cases mres with
          | error e =>
            have hpf : postLockFailed env files = true := by
              rw [postLockFailed, hl]
              simp only [hb, hm]
            rw [hpf]
            by_cases hr0 : env.releaseOk 0 = true
            · simp [finishFailure, releaseLockAndExit, hr0, hb, hm]
            · by_cases hr1 : env.releaseOk 1 = true
              · simp [finishFailure, releaseLockAndExit, hr0, hr1, hb, hm]
              · simp [finishFailure, releaseLockAndExit, hr0, hr1, hb, hm]
          | ok u2 =>
            have hpf : postLockFailed env files = false := by
              rw [postLockFailed, hl]
              simp only [hb, hm]
            rw [hpf]
            by_cases hr0 : env.releaseOk 0 = true
            · simp [finishSuccess, releaseLockAndExit, hr0, hb, hm]
            · simp [finishSuccess, releaseLockAndExit, hr0, hb, hm]

/-- C7 (amended): every `process.exit` call uses code 0 or 1; the fully
successful path exits 0 and the pre-lock and post-lock failure paths exit 1
when their release succeeds — but when the failure path's release fails and
the subsequent (success-path) release call succeeds, the process exits 0
despite the failure; the process terminates without an exit call exactly
when the last release attempt fails. -/
theorem c7_exit_codes_amended (env : MEnv) (files : List SrcFile) :
    ((migratorStart env files).2 = .noExit ∨
     (migratorStart env files).2 = .exited 0 ∨
     (migratorStart env files).2 = .exited 1) ∧
    (env.initOk = false → (migratorStart env files).2 = .exited 1) ∧
    (env.initOk = true → env.acquireOk = false →
      (migratorStart env files).2 = .exited 1) ∧
    (env.initOk = true → env.acquireOk = true → postLockFailed env files = false →
      env.releaseOk 0 = true → (migratorStart env files).2 = .exited 0) ∧
    (env.initOk = true → env.acquireOk = true → postLockFailed env files = false →
      env.releaseOk 0 = false → (migratorStart env files).2 = .noExit) ∧
    (env.initOk = true → env.acquireOk = true → postLockFailed env files = true →
      env.releaseOk 0 = true → (migratorStart env files).2 = .exited 1) ∧
    (env.initOk = true → env.acquireOk = true → postLockFailed env files = true →
      env.releaseOk 0 = false → env.releaseOk 1 = true →
      (migratorStart env files).2 = .exited 0) ∧
    (env.initOk = true → env.acquireOk = true → postLockFailed env files = true →
      env.releaseOk 0 = false → env.releaseOk 1 = false →
      (migratorStart env files).2 = .noExit) := by
  have h := migratorStart_outcome env files
  refine ⟨?_, ?_, ?_, ?_, ?_, ?_, ?_, ?_⟩
  · rw [h]
    cases env.initOk <;> cases env.acquireOk <;>
      cases hpf : postLockFailed env files <;>
      cases hr0 : env.releaseOk 0 <;> cases hr1 : env.releaseOk 1 <;> simp
  · intro h1; rw [h, h1]; simp
  · intro h1 h2; rw [h, h1, h2]; simp
  · intro h1 h2 h3 h4; rw [h, h1, h2, h3, h4]; simp
  · intro h1 h2 h3 h4; rw [h, h1, h2, h3, h4]; simp
  · intro h1 h2 h3 h4; rw [h, h1, h2, h3, h4]; simp
  · intro h1 h2 h3 h4 h5; rw [h, h1, h2, h3, h4, h5]; simp
  · intro h1 h2 h3 h4 h5; rw [h, h1, h2, h3, h4, h5]; simp

/-- Witness for C7 (amended): the successful-run exit 0 and the failing-run
exit 1 branches at concrete inputs. -/
theorem c7_exit_codes_amended_witness :
    (migratorStart envAllOk filesRound).2 = .exited 0 ∧
    (migratorStart envFailedRow [fileBoot, fileBadMig, fileM2]).2 = .exited 1 := by
  constructor
  · exact (c7_exit_codes_amended envAllOk filesRound).2.2.2.1 rfl rfl (by rfl) rfl
  · exact (c7_exit_codes_amended envFailedRow [fileBoot, fileBadMig, fileM2]).2.2.2.2.2.1
      rfl rfl (by rfl) rfl

/-- C7 counterexample: a run whose loading phase fails (a failure path) on
which the process nevertheless exits with code 0, because the failure-path
release attempt fails and the subsequent release succeeds. This refutes
"the exit code is 1 on every failure path". -/
theorem c7_exit_codes_counterexample :
    (loadFilesModel envReleaseRetry [fileBoot, fileBadMig, fileM2]).2 = .error () ∧
    (migratorStart envReleaseRetry [fileBoot, fileBadMig, fileM2]).2 = .exited 0 := by
  constructor
  · rfl
  · rfl

/-! ### Helper lemmas: well-formedness of the migrations map -/

theorem insertMig_keys (m : MigrationState) :
    ∀ qs : List (String × List MigrationState),
      (insertMig m qs).map Prod.fst =
        if m.service ∈ qs.map Prod.fst then qs.map Prod.fst
        else qs.map Prod.fst ++ [m.service] := by
  intro qs
  induction qs with
  | nil => simp [insertMig]
  | cons p rest ih =>
    obtain ⟨s, ms⟩ := p
    by_cases hs : s = m.service
    · subst hs
      simp [insertMig]
    · rw [insertMig, if_neg hs]
      simp only [List.map_cons]
      rw [ih]
      by_cases hmem : m.service ∈ rest.map Prod.fst
      · simp [hmem, Ne.symm hs]
      · simp [hmem, Ne.symm hs]

theorem insertMig_mem_prop (m : MigrationState) :
    ∀ qs, (∀ p ∈ qs, p.2 ≠ [] ∧ ∀ x ∈ p.2, x.service = p.1) →
      ∀ p ∈ insertMig m qs, p.2 ≠ [] ∧ ∀ x ∈ p.2, x.service = p.1 := by
  intro qs
  induction qs with
  | nil =>
    intro h p hp
    simp [insertMig] at hp
    subst hp
    exact ⟨by simp, by simp⟩
  | cons q rest ih =>
    intro h p hp
    obtain ⟨s, ms⟩ := q
    by_cases hs : s = m.service
    · subst hs
      rw [insertMig, if_pos rfl] at hp
      rcases List.mem_cons.mp hp with h1 | h1
      · subst h1
        refine ⟨by simp, ?_⟩
        intro x hx
        rcases List.mem_append.mp hx with h2 | h2
        · exact (h (m.service, ms) (by simp)).2 x h2
        · simp at h2; subst h2; rfl
      · exact h p (by simp [h1])
    · rw [insertMig, if_neg hs] at hp
      rcases List.mem_cons.mp hp with h1 | h1
      · subst h1
        exact h (s, ms) (by simp)
      · exact ih (fun x hx => h x (by simp [hx])) p h1

theorem insertMig_wf (m : MigrationState)
    (qs : List (String × List MigrationState)) (h : wfQueues qs) :
    wfQueues (insertMig m qs) := by
  obtain ⟨hnd, hmem⟩ := h
  refine ⟨?_, insertMig_mem_prop m qs hmem⟩
  rw [insertMig_keys]
  by_cases hin : m.service ∈ qs.map Prod.fst
  · simpa [hin] using hnd
  · rw [if_neg hin, List.nodup_append]
    refine ⟨hnd, by simp, ?_⟩
    intro a ha
    simp only [List.mem_singleton]
    intro hc
    subst hc
    exact hin ha

theorem loadFilesGo_wf (env : MEnv) :
    ∀ (files : List SrcFile) (bs : List (String × String))
      (qs : List (String × List MigrationState)),
      wfQueues qs →
      ∀ bs' qs', (loadFilesGo env files bs qs).2 = .ok (bs', qs') →
        wfQueues qs' := by
  intro files
  induction files with
  | nil =>
    intro bs qs hwf bs' qs' h
    simp [loadFilesGo] at h
    rw [← h.2]
    exact hwf
  | cons f rest ih =>
    intro bs qs hwf bs' qs' h
    by_cases hb : isBootstrapFile env.bootstrapFilename f
    · rw [loadFilesGo] at h
      simp only [hb, if_pos] at h
      exact ih _ _ hwf bs' qs' h
    · by_cases hd : fileDepth f = 2
      · by_cases hbad : badHydration (mkMigration env f)
        · rw [loadFilesGo] at h
          simp [hb, hd, hbad] at h
        · rw [loadFilesGo] at h
          simp only [hb, hd, hbad, Bool.false_eq_true, if_true, if_false,
            reduceIte] at h
          exact ih _ _ (insertMig_wf _ _ hwf) bs' qs' h
      · rw [loadFilesGo] at h
        simp only [hb, hd, Bool.false_eq_true, if_false, reduceIte] at h
        exact ih _ _ hwf bs' qs' h

theorem sortQueues_wf (qs : List (String × List MigrationState))
    (h : wfQueues qs) : wfQueues (sortQueues qs) := by
  obtain ⟨hnd, hmem⟩ := h
  constructor
  · simpa [sortQueues, List.map_map, Function.comp] using hnd
  · intro p hp
    rw [sortQueues] at hp
    simp only [List.mem_map] at hp
    obtain ⟨q, hq, hpq⟩ := hp
    subst hpq
    have hperm : (List.insertionSort (fun a b => fileLe a b = true) q.2).Perm q.2 :=
      List.perm_insertionSort _ _
    refine ⟨?_, ?_⟩
    · intro hc
      simp only at hc
      have hlen := hperm.length_eq
      rw [hc] at hlen
      simp only [List.length_nil] at hlen
      exact (hmem q hq).1 (List.eq_nil_of_length_eq_zero hlen.symm)
    · intro x hx
      simp only at hx
      exact (hmem q hq).2 x (hperm.mem_iff.mp hx)

theorem sortQueues_sorted (qs : List (String × List MigrationState)) :
    ∀ p ∈ sortQueues qs, List.Sorted (fun a b => fileLe a b = true) p.2 := by
  intro p hp
  rw [sortQueues] at hp
  simp only [List.mem_map] at hp
  obtain ⟨q, hq, hpq⟩ := hp
  subst hpq
  haveI ht : IsTotal MigrationState (fun a b => fileLe a b = true) :=
    ⟨fileLe_total⟩
  haveI htr : IsTrans MigrationState (fun a b => fileLe a b = true) :=
    ⟨fileLe_trans⟩
  exact List.sorted_insertionSort _ q.2

theorem loadFilesModel_wf (env : MEnv) (files : List SrcFile)
    (bs : List (String × String)) (qs : List (String × List MigrationState))
    (h : (loadFilesModel env files).2 = .ok (bs, qs)) :
    wfQueues qs ∧ ∀ p ∈ qs, List.Sorted (fun a b => fileLe a b = true) p.2 := by
  rw [loadFilesModel] at h
  cases hg : (loadFilesGo env files [] []).2 with
  | error e => rw [hg] at h; simp at h
  | ok p0 =>
    obtain ⟨bs0, qs0⟩ := p0
    rw [hg] at h
    simp only [Option.some.injEq, Except.ok.injEq, Prod.mk.injEq] at h
    have hq : qs = sortQueues qs0 := h.2.symm
    subst hq
    have hwf0 : wfQueues qs0 :=
      loadFilesGo_wf env files [] [] ⟨by simp, by simp⟩ bs0 qs0 hg
    exact ⟨sortQueues_wf qs0 hwf0, sortQueues_sorted qs0⟩

/-! ### Helper lemmas: the round scheduler -/

theorem roundRest_nil : roundRest [] = [] := rfl

theorem roundRest_cons (s : String) (m0 : MigrationState)
    (ms' : List MigrationState) (qs' : List (String × List MigrationState)) :
    roundRest ((s, m0 :: ms') :: qs') =
      if ms'.isEmpty then roundRest qs' else (s, ms') :: roundRest qs' := by
  simp only [roundRest, List.filterMap_cons]
  by_cases he : ms'.isEmpty <;> simp [he]

theorem roundRest_cons_nil (s : String)
    (qs' : List (String × List MigrationState)) :
    roundRest ((s, []) :: qs') = roundRest qs' := by
  simp [roundRest, List.filterMap_cons]

theorem totalCount_cons (s : String) (l : List MigrationState)
    (qs : List (String × List MigrationState)) :
    totalCount ((s, l) :: qs) = l.length + totalCount qs := by
  simp [totalCount]

theorem roundHeads_cons (s : String) (l : List MigrationState)
    (qs : List (String × List MigrationState)) :
    roundHeads ((s, l) :: qs) =
      match l.head? with
      | none => roundHeads qs
      | some m => m :: roundHeads qs := by
  cases l <;> simp [roundHeads, List.filterMap_cons]

theorem roundRest_keys_sublist (qs : List (String × List MigrationState)) :
    ((roundRest qs).map Prod.fst).Sublist (qs.map Prod.fst) := by
  induction qs with
  | nil => simp [roundRest]
  | cons q qs' ih =>
    obtain ⟨s, ms⟩ := q
    match ms with
    | [] =>
      rw [roundRest_cons_nil]
      simpa using ih.cons s
    | m0 :: ms' =>
      rw [roundRest_cons]
      by_cases he : ms'.isEmpty
      · rw [if_pos he]
        simpa using ih.cons s
      · rw [if_neg he]
        simpa using ih.cons₂ s

theorem roundRest_wf (qs : List (String × List MigrationState))
    (h : wfQueues qs) : wfQueues (roundRest qs) := by
  obtain ⟨hnd, hmem⟩ := h
  constructor
  · exact hnd.sublist (roundRest_keys_sublist qs)
  · intro p hp
    rw [roundRest] at hp
    rw [List.mem_filterMap] at hp
    obtain ⟨q, hq, hqp⟩ := hp
    obtain ⟨s, ms⟩ := q
    match ms with
    | [] => simp at hqp
    | m0 :: ms' =>
      simp only at hqp
      by_cases he : ms'.isEmpty
      · rw [if_pos he] at hqp; simp at hqp
      · rw [if_neg he] at hqp
        simp only [Option.some.injEq] at hqp
        subst hqp
        refine ⟨by simpa using he, ?_⟩
        intro x hx
        exact (hmem (s, m0 :: ms') hq).2 x (by simp [hx])

theorem roundRest_count (qs : List (String × List MigrationState))
    (h : ∀ p ∈ qs, p.2 ≠ []) :
    totalCount (roundRest qs) + qs.length = totalCount qs := by
  induction qs with
  | nil => simp [roundRest, totalCount]
  | cons q qs' ih =>
    obtain ⟨s, ms⟩ := q
    have hne : ms ≠ [] := h (s, ms) (by simp)
    have ih' := ih (fun p hp => h p (by simp [hp]))
    match ms, hne with
    | m0 :: ms', _ =>
      rw [roundRest_cons, totalCount_cons]
      by_cases he : ms'.isEmpty
      · have h0 : ms' = [] := by simpa using he
        subst h0
        rw [if_pos he]
        simp only [List.length_cons, List.length_nil]
        omega
      · rw [if_neg he]
        rw [totalCount_cons]
        simp only [List.length_cons]
        omega

theorem keys_nodup_mem_unique :
    ∀ (qs : List (String × List MigrationState)) (s : String)
      (l l' : List MigrationState),
      (qs.map Prod.fst).Nodup → (s, l) ∈ qs → (s, l') ∈ qs → l = l' := by
  intro qs
  induction qs with
  | nil => intro s l l' _ h; simp at h
  | cons q qs' ih =>
    intro s l l' hnd h1 h2
    obtain ⟨s0, ms0⟩ := q
    simp only [List.map_cons, List.nodup_cons] at hnd
    rcases List.mem_cons.mp h1 with ha | ha <;>
      rcases List.mem_cons.mp h2 with hb | hb
    · rw [Prod.mk.injEq] at ha hb
      exact ha.2.trans hb.2.symm
    · rw [Prod.mk.injEq] at ha
      exact absurd (ha.1 ▸ List.mem_map_of_mem Prod.fst hb) hnd.1
    · rw [Prod.mk.injEq] at hb
      exact absurd (hb.1 ▸ List.mem_map_of_mem Prod.fst ha) hnd.1
    · exact ih s l l' hnd.2 ha hb

theorem serviceEvents_append (s : String) (a b : List MEv) :
    serviceEvents s (a ++ b) = serviceEvents s a ++ serviceEvents s b := by
  simp [serviceEvents, List.filter_append]

theorem serviceEvents_wait (s : String) (tr : List MEv) :
    serviceEvents s (MEv.schemaWait :: tr) = serviceEvents s tr := by
  simp [serviceEvents]

theorem serviceEvents_map_migEv (s : String) :
    ∀ l : List MigrationState,
      serviceEvents s (l.map migEv) =
        (l.filter (fun m => m.service == s)).map migEv := by
  intro l
  induction l with
  | nil => rfl
  | cons m rest ih =>
    simp only [List.map_cons, serviceEvents, List.filter_cons, migEv] at ih ⊢
    by_cases hm : (m.service == s) = true
    · simp [hm, ih, migEv]
    · rw [Bool.not_eq_true] at hm
      simp [hm, ih, migEv]

theorem headsFilter_not_mem :
    ∀ (qs : List (String × List MigrationState)) (s : String),
      (∀ p ∈ qs, ∀ x ∈ p.2, x.service = p.1) → s ∉ qs.map Prod.fst →
      (roundHeads qs).filter (fun m => m.service == s) = [] := by
  intro qs
  induction qs with
  | nil => intro s _ _; simp [roundHeads]
  | cons q qs' ih =>
    intro s hsvc hnot
    obtain ⟨s0, ms0⟩ := q
    simp only [List.map_cons, List.mem_cons] at hnot
    push_neg at hnot
    rw [roundHeads_cons]
    match ms0 with
    | [] =>
      exact ih s (fun p hp => hsvc p (by simp [hp])) hnot.2
    | mh :: mt =>
      simp only [List.head?_cons, List.filter_cons]
      have hms : mh.service = s0 := (hsvc (s0, mh :: mt) (by simp)) mh (by simp)
      have hne : (mh.service == s) = false := by
        rw [hms]
        exact beq_eq_false_iff_ne.mpr (fun hc => hnot.1 hc.symm)
      rw [hne]
      simp only [Bool.false_eq_true, if_false]
      exact ih s (fun p hp => hsvc p (by simp [hp])) hnot.2

theorem headsFilter_mem :
    ∀ (qs : List (String × List MigrationState)) (s : String)
      (m0 : MigrationState) (ms' : List MigrationState),
      (qs.map Prod.fst).Nodup →
      (∀ p ∈ qs, ∀ x ∈ p.2, x.service = p.1) →
      (s, m0 :: ms') ∈ qs →
      (roundHeads qs).filter (fun m => m.service == s) = [m0] := by
  intro qs
  induction qs with
  | nil => intro s m0 ms' _ _ h; simp at h
  | cons q qs' ih =>
    intro s m0 ms' hnd hsvc hmem
    obtain ⟨s0, ms0⟩ := q
    simp only [List.map_cons, List.nodup_cons] at hnd
    rcases List.mem_cons.mp hmem with ha | ha
    · rw [Prod.mk.injEq] at ha
      obtain ⟨hs0, hms0⟩ := ha
      subst hs0
      rw [← hms0, roundHeads_cons]
      simp only [List.head?_cons, List.filter_cons]
      have hm0svc : m0.service = s := by
        have := (hsvc (s, ms0) (by simp)) m0 (by rw [← hms0]; simp)
        exact this
      have hm0 : (m0.service == s) = true := by
        rw [hm0svc]; exact beq_self_eq_true s
      rw [hm0]
      simp only [if_pos rfl]
      rw [headsFilter_not_mem qs' s (fun p hp => hsvc p (by simp [hp])) hnd.1]
      simp
    · have hs0ne : s0 ≠ s := by
        intro hc
        subst hc
        exact hnd.1 (List.mem_map_of_mem Prod.fst ha)
      rw [roundHeads_cons]
      match ms0 with
      | [] =>
        exact ih s m0 ms' hnd.2 (fun p hp => hsvc p (by simp [hp])) ha
      | mh :: mt =>
        simp only [List.head?_cons, List.filter_cons]
        have hms : mh.service = s0 := (hsvc (s0, mh :: mt) (by simp)) mh (by simp)
        have hne : (mh.service == s) = false := by
          rw [hms]
          exact beq_eq_false_iff_ne.mpr hs0ne
        rw [hne]
        simp only [Bool.false_eq_true, if_false]
        exact ih s m0 ms' hnd.2 (fun p hp => hsvc p (by simp [hp])) ha

theorem roundRest_mem_tail (qs : List (String × List MigrationState))
    (s : String) (m0 : MigrationState) (ms' : List MigrationState)
    (hmem : (s, m0 :: ms') ∈ qs) (hne : ms' ≠ []) : (s, ms') ∈ roundRest qs := by
  rw [roundRest, List.mem_filterMap]
  refine ⟨(s, m0 :: ms'), hmem, ?_⟩
  simp only
  rw [if_neg (by simpa using hne)]

theorem roundRest_mem_inv (qs : List (String × List MigrationState))
    (p : String × List MigrationState) (hp : p ∈ roundRest qs) :
    ∃ mh, (p.1, mh :: p.2) ∈ qs ∧ p.2 ≠ [] := by
  rw [roundRest, List.mem_filterMap] at hp
  obtain ⟨q, hq, hqp⟩ := hp
  obtain ⟨s0, ms0⟩ := q
  match ms0 with
  | [] => simp at hqp
  | mh :: mt =>
    simp only at hqp
    by_cases he : mt.isEmpty
    · rw [if_pos he] at hqp; simp at hqp
    · rw [if_neg he] at hqp
      simp only [Option.some.injEq] at hqp
      subst hqp
      exact ⟨mh, by simpa using hq, by simpa using he⟩

theorem roundRest_key_absent (qs : List (String × List MigrationState))
    (s : String) (m0 : MigrationState)
    (hnd : (qs.map Prod.fst).Nodup) (hmem : (s, [m0]) ∈ qs) :
    s ∉ (roundRest qs).map Prod.fst := by
  intro hc
  rw [List.mem_map] at hc
  obtain ⟨p, hp, hps⟩ := hc
  obtain ⟨mh, hmh, hne⟩ := roundRest_mem_inv qs p hp
  rw [hps] at hmh
  have := keys_nodup_mem_unique qs s [m0] (mh :: p.2) hnd hmem hmh
  simp at this
  exact hne this.2

theorem schedule_serviceEvents (ok : MigrationState → Bool)
    (hok : ∀ m, ok m = true) :
    ∀ (fuel : Nat) (qs : List (String × List MigrationState)),
      totalCount qs ≤ fuel → wfQueues qs →
      (∀ s ms, (s, ms) ∈ qs →
        serviceEvents s (scheduleAux ok fuel qs).1 = ms.map migEv) ∧
      (∀ s, s ∉ qs.map Prod.fst →
        serviceEvents s (scheduleAux ok fuel qs).1 = []) := by
  intro fuel
  induction fuel with
  | zero =>
    intro qs hc hwf
    match qs with
    | [] =>
      constructor
      · intro s ms h; simp at h
      · intro s h; rfl
    | q :: qs' =>
      exfalso
      have hne := (hwf.2 q (by simp)).1
      simp only [totalCount, List.map_cons, List.sum_cons, Nat.le_zero,
        Nat.add_eq_zero] at hc
      exact hne (List.eq_nil_of_length_eq_zero hc.1)
  | succ n ih =>
    intro qs hc hwf
    match qs with
    | [] =>
      constructor
      · intro s ms h; simp at h
      · intro s h; rfl
    | q :: qs' =>
      have hall : (roundHeads (q :: qs')).all ok = true :=
        List.all_eq_true.mpr (fun m _ => hok m)
      have htr : (scheduleAux ok (n + 1) (q :: qs')).1 =
          (roundHeads (q :: qs')).map migEv ++
            MEv.schemaWait :: (scheduleAux ok n (roundRest (q :: qs'))).1 := by
        rw [scheduleAux, hall]
        simp
      have hcR : totalCount (roundRest (q :: qs')) ≤ n := by
        have := roundRest_count (q :: qs') (fun p hp => (hwf.2 p hp).1)
        simp only [List.length_cons] at this
        omega
      have hwfR := roundRest_wf (q :: qs') hwf
      have ihR := ih (roundRest (q :: qs')) hcR hwfR
      have hnd := hwf.1
      have hsvc : ∀ p ∈ (q :: qs'), ∀ x ∈ p.2, x.service = p.1 :=
        fun p hp => (hwf.2 p hp).2
      constructor
      · intro s ms hmem
        have hne := (hwf.2 (s, ms) hmem).1
        match ms, hne with
        | m0 :: ms', _ =>
          rw [htr, serviceEvents_append, serviceEvents_wait,
            serviceEvents_map_migEv,
            headsFilter_mem (q :: qs') s m0 ms' hnd hsvc hmem]
          match ms' with
          | [] =>
            rw [ihR.2 s (roundRest_key_absent (q :: qs') s m0 hnd hmem)]
            simp
          | mh :: mt =>
            rw [ihR.1 s (mh :: mt)
              (roundRest_mem_tail (q :: qs') s m0 (mh :: mt) hmem (by simp))]
            simp
      · intro s hnot
        rw [htr, serviceEvents_append, serviceEvents_wait,
          serviceEvents_map_migEv, headsFilter_not_mem (q :: qs') s hsvc hnot]
        have : s ∉ (roundRest (q :: qs')).map Prod.fst := by
          intro hc2
          exact hnot ((roundRest_keys_sublist (q :: qs')).subset hc2)
        rw [ihR.2 s this]
        simp

/-- C4: for any run whose loading succeeded, each service queue is sorted
ascending by file name (strictly so, per keyspace, when the file names are
distinct), and under all-successful applies the scheduler applies exactly
that queue in that order, one element per round; concretely, for S1 = [a1,
a2] and S2 = [b1], a1 and b1 are applied before the schema-agreement wait
that precedes a2's round. -/
theorem c4_order_and_round_barrier (env : MEnv) (files : List SrcFile)
    (bs : List (String × String)) (qs : List (String × List MigrationState))
    (s ks : String) (ms : List MigrationState)
    (hload : (loadFilesModel env files).2 = .ok (bs, qs))
    (hmem : (s, ms) ∈ qs)
    (hok : ∀ s' f', env.migOk s' f' = true) :
    serviceEvents s (applyMigrationsModel env qs).1 = ms.map migEv ∧
    List.Sorted (· ≤ ·) (ms.map (fun m => m.file)) ∧
    (((ms.filter (fun m => m.keyspace == ks)).map (fun m => m.file)).Nodup →
      List.Sorted (· < ·)
        ((ms.filter (fun m => m.keyspace == ks)).map (fun m => m.file))) ∧
    applyMigrationsModel envAllOk qsRound =
      ([migEv mA1, migEv mB1, MEv.schemaWait, migEv mA2, MEv.schemaWait],
       .ok ()) := by
  obtain ⟨hwf, hsorted⟩ := loadFilesModel_wf env files bs qs hload
  have hsch := schedule_serviceEvents (fun m => env.migOk m.service m.file)
    (fun m => hok m.service m.file) (totalCount qs + 1) qs
    (Nat.le_succ _) hwf
  have hle : List.Sorted (· ≤ ·) (ms.map (fun m => m.file)) := by
    have hs := hsorted (s, ms) hmem
    exact List.Pairwise.map _ (fun a b hab => (strLe_iff a.file b.file).mp hab) hs
  refine ⟨hsch.1 s ms hmem, hle, ?_, rfl⟩
  intro hnd
  have hsub : ((ms.filter (fun m => m.keyspace == ks)).map (fun m => m.file)).Sublist
      (ms.map (fun m => m.file)) :=
    (List.filter_sublist ms).map _
  have hle' : List.Sorted (· ≤ ·)
      ((ms.filter (fun m => m.keyspace == ks)).map (fun m => m.file)) :=
    hle.sublist hsub
  exact (hle'.and hnd).imp (fun hab => lt_of_le_of_ne hab.1 hab.2)

/-- Witness for C4: the loader output for the concrete S1/S2 layout, the
per-service application order of S1, and the concrete round barrier. -/
theorem c4_order_and_round_barrier_witness :
    serviceEvents "S1" (applyMigrationsModel envAllOk
      [("S1", [⟨"ks", "S1", "a1.cql", "CREATE a1 ;", none, none, false⟩,
               ⟨"ks", "S1", "a2.cql", "CREATE a2 ;", none, none, false⟩]),
       ("S2", [⟨"ks", "S2", "b1.cql", "CREATE b1 ;", none, none, false⟩])]).1 =
      [MEv.appliedMigration "ks" "S1" "a1.cql",
       MEv.appliedMigration "ks" "S1" "a2.cql"] ∧
    applyMigrationsModel envAllOk qsRound =
      ([migEv mA1, migEv mB1, MEv.schemaWait, migEv mA2, MEv.schemaWait],
       .ok ()) := by
  have h := c4_order_and_round_barrier envAllOk filesRound []
    [("S1", [⟨"ks", "S1", "a1.cql", "CREATE a1 ;", none, none, false⟩,
             ⟨"ks", "S1", "a2.cql", "CREATE a2 ;", none, none, false⟩]),
     ("S2", [⟨"ks", "S2", "b1.cql", "CREATE b1 ;", none, none, false⟩])]
    "S1" "ks"
    [⟨"ks", "S1", "a1.cql", "CREATE a1 ;", none, none, false⟩,
     ⟨"ks", "S1", "a2.cql", "CREATE a2 ;", none, none, false⟩]
    (by rfl) (by simp) (fun _ _ => rfl)
  exact ⟨(h.1).trans (by rfl), h.2.2.2⟩
